import Mathlib

/-!
# Verification of the audio pacer core (`src/services/audioProcessor.ts`)

Shallow embedding of the PCM analysis / resynthesis pipeline.  JavaScript
numbers are modelled by `ℚ` (all arithmetic appearing in the claims is exact
at the concrete inputs involved); a decoded `AudioBuffer` is modelled by a
list of equal-length channels of rational samples plus a sample rate.
JavaScript's out-of-range / non-integer typed-array reads (`undefined`,
whose `Math.abs` is `NaN`, which compares false both ways) are modelled by
`Option ℚ` with `none` making every threshold comparison false.  Fallible
operations (`createBuffer`, `Float32Array.set`, thrown errors) are modelled
with `Option` / `Except`.
-/

/-- `Settings` from `src/types` (`part_002`): the three slider values. -/
structure Settings where
  silenceThreshold : ℚ
  minSilenceDuration : ℚ
  pauseMultiplier : ℚ
deriving DecidableEq, Repr

/-- A decoded `AudioBuffer`: per-channel sample data plus sample rate. -/
structure SampleBuffer where
  channels : List (List ℚ)
  sampleRate : ℚ
deriving DecidableEq, Repr

instance : Inhabited SampleBuffer := ⟨⟨[], 0⟩⟩

/-- `AudioBuffer.numberOfChannels`. -/
def SampleBuffer.numberOfChannels (b : SampleBuffer) : ℕ := b.channels.length

/-- `AudioBuffer.length` (samples per channel; all channels share it). -/
def SampleBuffer.length (b : SampleBuffer) : ℕ := (b.channels.headD []).length

/-- `SpeechChunk` from `src/types` (`part_002`).  The scan index of
`detectSpeechChunks` is a JavaScript number, so the fields are rationals
(`end` is a Lean keyword, hence `stop`). -/
structure SpeechChunk where
  start : ℚ
  stop : ℚ
deriving DecidableEq, Repr

/-- Read `channelData[q]` as JavaScript does: a value for an in-range
integer index, `undefined` (here `none`) otherwise. -/
def sample? (data : List ℚ) (q : ℚ) : Option ℚ :=
  if q.den = 1 ∧ 0 ≤ q.num then data.get? q.num.toNat else none

/-- `Math.abs (channelData[i]) > silenceThreshold`; `NaN` compares false. -/
def isAbove (x : Option ℚ) (t : ℚ) : Bool :=
  match x with
  | some v => decide (t < |v|)
  | none => false

/-- `Math.abs (channelData[i]) < silenceThreshold`; `NaN` compares false. -/
def isBelow (x : Option ℚ) (t : ℚ) : Bool :=
  match x with
  | some v => decide (|v| < t)
  | none => false

/-- The silence-lookahead loop of `detectSpeechChunks`
(`for (let j = i; j < i + minSilenceSamples && j < channelData.length; j++)`):
returns the breaking index `j` whose sample exceeds the threshold
(`isSilenceLongEnough = false`, the scan pointer jumps to `j`), or `none`
when the whole (possibly end-truncated) window stays at or below the
threshold.  The loop advances `j` by one each iteration and stops once
`j ≥ data.length`, so `data.length + 1` fuel is exact for every start
index `≥ 0` (the only way the surrounding scan calls it). -/
def lookahead (data : List ℚ) (t jEnd : ℚ) : ℕ → ℚ → Option ℚ
  | 0, _ => none
  | fuel + 1, j =>
    if j < jEnd ∧ j < (data.length : ℚ) then
      if isAbove (sample? data j) t then some j
      else lookahead data t jEnd fuel (j + 1)
    else none

/-- The main scan loop of `detectSpeechChunks` (lines 20–42), state-passing:
`i` is the scan index, `s` is `speechStart` (`-1` = not in speech), `acc`
the chunks pushed so far.  Returns the chunks together with the final
`speechStart`.  Each iteration consumes one fuel and (for a nonnegative
silence window) advances `i` by at least one, so `data.length + 1` fuel is
exact. -/
def detectLoop (data : List ℚ) (t minSil : ℚ) :
    ℕ → ℚ → ℚ → List SpeechChunk → List SpeechChunk × ℚ
  | 0, _, s, acc => (acc, s)
  | fuel + 1, i, s, acc =>
    if i < (data.length : ℚ) then
      let x := sample? data i
      let s1 := if isAbove x t ∧ s < 0 then i else s
      if isBelow x t ∧ 0 ≤ s1 then
        match lookahead data t (i + minSil) (data.length + 1) i with
        | some j => detectLoop data t minSil fuel (j + 1) s1 acc
        | none => detectLoop data t minSil fuel (i + minSil + 1) (-1) (acc ++ [⟨s1, i⟩])
      else detectLoop data t minSil fuel (i + 1) s1 acc
    else (acc, s)

/-- Line 15 of `audioProcessor.ts`:
`const minSilenceSamples = sampleRate * minSilenceDuration;`
(the raw product — the source applies no rounding). -/
def minSilenceSamples (audioBuffer : SampleBuffer) (settings : Settings) : ℚ :=
  audioBuffer.sampleRate * settings.minSilenceDuration

/-- Appending the final chunk after the scan (lines 44–47): if the audio
ends while still in speech, emit a chunk ending at the buffer length. -/
def detectFinish (p : List SpeechChunk × ℚ) (len : ℕ) : List SpeechChunk :=
  if 0 ≤ p.2 then p.1 ++ [⟨p.2, (len : ℚ)⟩] else p.1

/-- `detectSpeechChunks(audioBuffer, settings)` (lines 11–50): scan the
first channel and return the speech chunks. -/
def detectSpeechChunks (audioBuffer : SampleBuffer) (settings : Settings) :
    List SpeechChunk :=
  let channelData := audioBuffer.channels.headD []
  detectFinish
    (detectLoop channelData settings.silenceThreshold
      (minSilenceSamples audioBuffer settings)
      (channelData.length + 1) 0 (-1) []) channelData.length

/-- `Math.round`: nearest integer, halves toward positive infinity. -/
def jsRound (q : ℚ) : ℤ := ⌊q + 1/2⌋

/-- JavaScript `ToIntegerOrInfinity`: truncation toward zero (used by
`subarray` on its arguments and by `Int16Array` stores). -/
def toIntTrunc (q : ℚ) : ℤ := if 0 ≤ q then ⌊q⌋ else ⌈q⌉

/-- `Float32Array.subarray(b, e)`: truncate the arguments to integers,
interpret negatives relative to the end, clamp to `[0, length]`, and take
the (possibly empty) indicated region. -/
def subarrayQ (data : List ℚ) (b e : ℚ) : List ℚ :=
  let len : ℤ := data.length
  let rb := toIntTrunc b
  let re := toIntTrunc e
  let s := if rb < 0 then max (len + rb) 0 else min rb len
  let f := if re < 0 then max (len + re) 0 else min re len
  (data.drop s.toNat).take (f - s).toNat

/-- `TypedArray.set(src, offset)`: overwrite `target` with `src` starting
at `offset`; a negative offset or overrun throws a `RangeError` (`none`). -/
def writeAt (target : List ℚ) (offset : ℤ) (src : List ℚ) : Option (List ℚ) :=
  if 0 ≤ offset ∧ offset.toNat + src.length ≤ target.length then
    some (target.take offset.toNat ++ src ++ target.drop (offset.toNat + src.length))
  else none

/-- Lines 56–62 of `createPaddedAudio`: the accumulated output length,
`chunkDuration * (1 + pauseMultiplier)` summed over the chunks. -/
def paddedTotalLength (chunks : List SpeechChunk) (pauseMultiplier : ℚ) : ℚ :=
  chunks.foldl (fun acc c => acc + (c.stop - c.start) * (1 + pauseMultiplier)) 0

/-- `audioContext.createBuffer(numberOfChannels, len, rate)`: a zero-filled
buffer; a channel count or length below one throws (`NotSupportedError`). -/
def mkBuffer (numberOfChannels : ℕ) (len : ℤ) (rate : ℚ) :
    Except String SampleBuffer :=
  if 1 ≤ numberOfChannels ∧ 1 ≤ len then
    .ok ⟨List.replicate numberOfChannels (List.replicate len.toNat 0), rate⟩
  else .error "NotSupportedError: createBuffer"

/-- The per-channel chunk-copy loop of `createPaddedAudio` (lines 74–87):
copy each chunk to the rounded write cursor, then advance the cursor by
the chunk duration plus the scaled pause. -/
def copyChunksAux (originalData : List ℚ) (pauseMultiplier : ℚ) :
    List SpeechChunk → ℚ → List ℚ → Option (List ℚ)
  | [], _, newData => some newData
  | c :: rest, currentPosition, newData =>
    let chunkDuration := c.stop - c.start
    let chunkData := subarrayQ originalData c.start c.stop
    match writeAt newData (jsRound currentPosition) chunkData with
    | none => none
    | some nd =>
      copyChunksAux originalData pauseMultiplier rest
        (currentPosition + chunkDuration + chunkDuration * pauseMultiplier) nd

/-- `createPaddedAudio(originalBuffer, chunks, settings)` (lines 52–90). -/
def createPaddedAudio (originalBuffer : SampleBuffer) (chunks : List SpeechChunk)
    (settings : Settings) : Except String SampleBuffer :=
  let totalLength := paddedTotalLength chunks settings.pauseMultiplier
  if totalLength = 0 then
    .error "No speech detected in the audio file. Try adjusting the silence threshold."
  else
    match mkBuffer originalBuffer.numberOfChannels ⌈totalLength⌉
        originalBuffer.sampleRate with
    | .error e => .error e
    | .ok newBuffer =>
      match (originalBuffer.channels.zip newBuffer.channels).mapM
          (fun p => copyChunksAux p.1 settings.pauseMultiplier chunks 0 p.2) with
      | none => .error "RangeError: offset is out of bounds"
      | some newChannels => .ok ⟨newChannels, newBuffer.sampleRate⟩

/-- Storing into an `Int16Array`: truncate toward zero, then wrap into
the signed 16-bit range. -/
def toInt16 (v : ℚ) : ℤ := (toIntTrunc v + 32768) % 65536 - 32768

/-- `convertBuffer` inside `encodeMp3` (lines 102–108): clamp each sample
to `[-1, 1]`, scale by `32767`, store as a 16-bit integer. -/
def convertBuffer (buffer : List ℚ) : List ℤ :=
  buffer.map (fun x => toInt16 (max (-1) (min 1 x) * 32767))

/-- The 16-bit conversion as the spec words it (§4.4): clamp to `[-1, 1]`,
scale by `32767`, round toward zero — with no wrapping step.  Used to
compare against `convertBuffer`. -/
def convertSampleClamped (x : ℚ) : ℤ := toIntTrunc (max (-1) (min 1 x) * 32767)

/-- `processAudioFile` (lines 135–158), from the decoded buffer on
(decoding and MP3 encoding are external capabilities; the returned buffer
is the padded audio handed to the encoder).  First component: the progress
messages emitted, in order. -/
def processAudioFile (originalBuffer : SampleBuffer) (settings : Settings) :
    List String × Except String SampleBuffer :=
  let msgs2 := ["Step 1/4: Decoding audio...", "Step 2/4: Analyzing for speech..."]
  let speechChunks := detectSpeechChunks originalBuffer settings
  if speechChunks.length = 0 then
    (msgs2, .error "Could not detect any speech. Please try adjusting the Silence Threshold slider to be lower.")
  else
    let msgs3 := msgs2 ++
      ["Step 3/4: Reconstructing audio with pauses... (found " ++
        toString speechChunks.length ++ " phrases)"]
    match createPaddedAudio originalBuffer speechChunks settings with
    | .error e => (msgs3, .error e)
    | .ok newBuffer =>
      (msgs3 ++ ["Step 4/4: Encoding final MP3 file..."], .ok newBuffer)

/-- The validation loop of `mergeAudioFiles` (lines 184–194): check every
decoded buffer against the first one's sample rate and channel count,
failing on the first mismatch, and accumulate the total length. -/
def validateAndSum (sampleRate : ℚ) (numberOfChannels : ℕ) :
    List SampleBuffer → Except String ℕ
  | [] => .ok 0
  | buffer :: rest =>
    if buffer.sampleRate ≠ sampleRate then
      .error ("Mismatched sample rates. All files must have a sample rate of " ++
        toString sampleRate ++ " Hz.")
    else if buffer.numberOfChannels ≠ numberOfChannels then
      .error ("Mismatched channel counts. All files must have " ++
        toString numberOfChannels ++ " channel(s).")
    else
      match validateAndSum sampleRate numberOfChannels rest with
      | .error e => .error e
      | .ok n => .ok (buffer.length + n)

/-- The concatenation loop of `mergeAudioFiles` (lines 199–206): copy each
buffer's channels into the destination at the running offset. -/
def mergeCopy : List SampleBuffer → ℕ → List (List ℚ) → Option (List (List ℚ))
  | [], _, acc => some acc
  | buffer :: rest, offset, acc =>
    match (acc.zip buffer.channels).mapM (fun p => writeAt p.1 (offset : ℤ) p.2) with
    | none => none
    | some acc2 => mergeCopy rest (offset + buffer.length) acc2

/-- `mergeAudioFiles` (lines 160–207), from the decoded buffers on: each
input is a file name together with its decoded buffer (decoding and MP3
encoding are external capabilities; the returned buffer is the merged
audio handed to the encoder).  First component: the progress messages
emitted, in order. -/
def mergeAudioFiles (files : List (String × SampleBuffer)) :
    List String × Except String SampleBuffer :=
  if files.length < 2 then
    ([], .error "At least two files are required to merge.")
  else
    let totalSteps := files.length + 2
    let decodedBuffers := files.map Prod.snd
    let msgs1 :=
      ("Step 1/" ++ toString totalSteps ++ ": Decoding audio files...") ::
        files.enum.map (fun p =>
          "Decoding " ++ toString (p.1 + 1) ++ "/" ++ toString files.length ++
            ": " ++ p.2.1 ++ "...")
    let msgs2 := msgs1 ++
      ["Step " ++ toString (files.length + 1) ++ "/" ++ toString totalSteps ++
        ": Validating audio properties..."]
    let firstBuffer := decodedBuffers.headD default
    match validateAndSum firstBuffer.sampleRate firstBuffer.numberOfChannels
        decodedBuffers with
    | .error e => (msgs2, .error e)
    | .ok totalLength =>
      let msgs3 := msgs2 ++
        ["Step " ++ toString (files.length + 2) ++ "/" ++ toString totalSteps ++
          ": Merging audio..."]
      match mkBuffer firstBuffer.numberOfChannels (totalLength : ℤ)
          firstBuffer.sampleRate with
      | .error e => (msgs3, .error e)
      | .ok mergedBuffer =>
        match mergeCopy decodedBuffers 0 mergedBuffer.channels with
        | none => (msgs3, .error "RangeError: offset is out of bounds")
        | some chans => (msgs3, .ok ⟨chans, mergedBuffer.sampleRate⟩)

/-- The chunk-sequence invariant of the spec (§3, §8): each chunk lies
inside the buffer with `0 ≤ start < end ≤ length`, and consecutive chunks
are ordered and non-overlapping (`stop ≤` next `start`). -/
def chunksWF (cs : List SpeechChunk) (len : ℕ) : Prop :=
  List.Chain' (fun a b => a.stop ≤ b.start) cs ∧
    ∀ c ∈ cs, 0 ≤ c.start ∧ c.start < c.stop ∧ c.stop ≤ (len : ℚ)

instance (cs : List SpeechChunk) (len : ℕ) : Decidable (chunksWF cs len) := by
  unfold chunksWF; infer_instance

/-- The concrete round-trip buffer of C1: four seconds at 16 kHz, mono,
magnitude `1/2` on `[0, 8000)` and `0` on `[8000, 64000)`. -/
def c1data : List ℚ := List.replicate 8000 (1/2) ++ List.replicate 56000 0

def c1buffer : SampleBuffer := ⟨[c1data], 16000⟩

def c1settings : Settings := ⟨7/100, 3/10, 1⟩

example :
    detectSpeechChunks ⟨[[1/2, 0, 0, 0, 1/2, 1/2]], 1⟩ ⟨7/100, 2, 1⟩ =
      [⟨0, 1⟩, ⟨4, 6⟩] := by with_unfolding_all rfl

example :
    detectSpeechChunks ⟨[[1/2, 0, 1/2, 1/2]], 1⟩ ⟨7/100, 2, 1⟩ =
      [⟨0, 4⟩] := by with_unfolding_all rfl

example :
    detectSpeechChunks ⟨[[0, 1/100, 0]], 1⟩ ⟨7/100, 2, 1⟩ = [] := by with_unfolding_all rfl

example :
    detectSpeechChunks ⟨[[1/2, 0]], 1⟩ ⟨7/100, 2, 1⟩ = [⟨0, 1⟩] := by with_unfolding_all rfl

example :
    createPaddedAudio ⟨[[1/2, 1/2]], 8⟩ [⟨0, 2⟩] ⟨7/100, 3/10, 1⟩ =
      .ok ⟨[[1/2, 1/2, 0, 0]], 8⟩ := by with_unfolding_all rfl

example : convertBuffer [2, -3/2, 1/2, -1/4] = [32767, -32767, 16383, -8191] := by
  with_unfolding_all rfl

example :
    (mergeAudioFiles [("a", ⟨[[1, 2]], 8⟩), ("b", ⟨[[3]], 8⟩)]).2 =
      .ok ⟨[[1, 2, 3]], 8⟩ := by with_unfolding_all rfl

example :
    (mergeAudioFiles [("a", ⟨[[1, 2]], 8⟩), ("b", ⟨[[3]], 8⟩)]).1.length = 5 := by
  with_unfolding_all rfl

example :
    (processAudioFile ⟨[[1/2]], 1⟩ ⟨7/100, 1, 1⟩).1.length = 4 ∧
      (processAudioFile ⟨[[1/2]], 1⟩ ⟨7/100, 1, 1⟩).2 = .ok ⟨[[1/2, 0]], 1⟩ := by
  constructor <;> with_unfolding_all rfl

theorem detectLoop_zero (data : List ℚ) (t minSil i s : ℚ) (acc : List SpeechChunk) :
    detectLoop data t minSil 0 i s acc = (acc, s) := rfl

theorem detectLoop_succ (data : List ℚ) (t minSil : ℚ) (fuel : ℕ) (i s : ℚ)
    (acc : List SpeechChunk) :
    detectLoop data t minSil (fuel + 1) i s acc =
      if i < (data.length : ℚ) then
        let x := sample? data i
        let s1 := if isAbove x t ∧ s < 0 then i else s
        if isBelow x t ∧ 0 ≤ s1 then
          match lookahead data t (i + minSil) (data.length + 1) i with
          | some j => detectLoop data t minSil fuel (j + 1) s1 acc
          | none =>
            detectLoop data t minSil fuel (i + minSil + 1) (-1) (acc ++ [⟨s1, i⟩])
        else detectLoop data t minSil fuel (i + 1) s1 acc
      else (acc, s) := rfl

theorem lookahead_succ (data : List ℚ) (t jEnd : ℚ) (fuel : ℕ) (j : ℚ) :
    lookahead data t jEnd (fuel + 1) j =
      if j < jEnd ∧ j < (data.length : ℚ) then
        if isAbove (sample? data j) t then some j
        else lookahead data t jEnd fuel (j + 1)
      else none := rfl

theorem sample?_natCast (data : List ℚ) (m : ℕ) :
    sample? data (m : ℚ) = data.get? m := by
  simp [sample?]

theorem sample?_isSome_lt {data : List ℚ} {q : ℚ} (h : (sample? data q).isSome) :
    q < (data.length : ℚ) := by
  unfold sample? at h
  split at h
  · rename_i hg
    have hq : (q.num : ℚ) = q := by
      rw [← Rat.den_eq_one_iff]; exact hg.1
    by_contra hlt
    have h1 : (data.length : ℚ) ≤ (q.num : ℚ) := by rw [hq]; exact not_lt.mp hlt
    have h2 : (data.length : ℤ) ≤ q.num := by exact_mod_cast h1
    have h3 : data.length ≤ q.num.toNat := (Int.le_toNat hg.2).mpr h2
    rw [List.get?_eq_getElem?, List.getElem?_eq_none h3] at h
    simp at h
  · simp at h

theorem isAbove_isSome {x : Option ℚ} {t : ℚ} (h : isAbove x t = true) :
    x.isSome := by
  cases x with
  | none => simp [isAbove] at h
  | some v => rfl

theorem isBelow_isSome {x : Option ℚ} {t : ℚ} (h : isBelow x t = true) :
    x.isSome := by
  cases x with
  | none => simp [isBelow] at h
  | some v => rfl

theorem isBelow_of_isAbove {x : Option ℚ} {t : ℚ} (h : isAbove x t = true) :
    isBelow x t = false := by
  cases x with
  | none => simp [isAbove] at h
  | some v =>
    simp only [isAbove, decide_eq_true_eq] at h
    simp only [isBelow, decide_eq_false_iff_not, not_lt]
    exact h.le

theorem isAbove_of_isBelow {x : Option ℚ} {t : ℚ} (h : isBelow x t = true) :
    isAbove x t = false := by
  cases x with
  | none => rfl
  | some v =>
    simp only [isBelow, decide_eq_true_eq] at h
    simp only [isAbove, decide_eq_false_iff_not, not_lt]
    exact h.le

theorem detectLoop_exit {data : List ℚ} {t minSil i : ℚ} (s : ℚ)
    (h : ¬ i < (data.length : ℚ)) (fuel : ℕ) (acc : List SpeechChunk) :
    detectLoop data t minSil fuel i s acc = (acc, s) := by
  cases fuel with
  | zero => rfl
  | succ fuel => rw [detectLoop_succ, if_neg h]

theorem detectLoop_step_above {data : List ℚ} {t minSil i : ℚ} (s : ℚ)
    (h : isAbove (sample? data i) t = true) (fuel : ℕ) (acc : List SpeechChunk) :
    detectLoop data t minSil (fuel + 1) i s acc =
      detectLoop data t minSil fuel (i + 1) (if s < 0 then i else s) acc := by
  have hlt : i < (data.length : ℚ) := sample?_isSome_lt (isAbove_isSome h)
  rw [detectLoop_succ, if_pos hlt]
  simp only [h, isBelow_of_isAbove h, true_and, Bool.false_eq_true, false_and, if_false]

theorem detectLoop_step_noOpen {data : List ℚ} {t minSil i s : ℚ}
    (hlt : i < (data.length : ℚ)) (h : isAbove (sample? data i) t = false)
    (hs : s < 0) (fuel : ℕ) (acc : List SpeechChunk) :
    detectLoop data t minSil (fuel + 1) i s acc =
      detectLoop data t minSil fuel (i + 1) s acc := by
  rw [detectLoop_succ, if_pos hlt]
  simp only [h, Bool.false_eq_true, false_and, if_false, not_le.mpr hs, and_false]

theorem detectLoop_step_quiet {data : List ℚ} {t minSil i s : ℚ}
    (hlt : i < (data.length : ℚ)) (ha : isAbove (sample? data i) t = false)
    (hb : isBelow (sample? data i) t = false) (fuel : ℕ) (acc : List SpeechChunk) :
    detectLoop data t minSil (fuel + 1) i s acc =
      detectLoop data t minSil fuel (i + 1) s acc := by
  rw [detectLoop_succ, if_pos hlt]
  simp only [ha, hb, Bool.false_eq_true, false_and, if_false]

theorem detectLoop_skipRegion {data : List ℚ} {t minSil : ℚ} (k : ℕ) :
    ∀ (fuel : ℕ) (i : ℕ) (s : ℚ) (acc : List SpeechChunk), s < 0 →
    (∀ m, m < k → isAbove (sample? data ((i + m : ℕ) : ℚ)) t = false) →
    detectLoop data t minSil (k + fuel) (i : ℚ) s acc =
      detectLoop data t minSil fuel ((i + k : ℕ) : ℚ) s acc := by
  induction k with
  | zero => intro fuel i s acc _ _; simp
  | succ k ih =>
    intro fuel i s acc hs h
    by_cases hlt : (i : ℚ) < (data.length : ℚ)
    · have harr : k + 1 + fuel = (k + fuel) + 1 := by omega
      rw [harr, detectLoop_step_noOpen hlt (by simpa using h 0 (by omega)) hs]
      have hcast : (i : ℚ) + 1 = ((i + 1 : ℕ) : ℚ) := by push_cast; ring
      rw [hcast, ih fuel (i + 1) s acc hs]
      · congr 1; push_cast; ring_nf
      · intro m hm
        have := h (m + 1) (by omega)
        simpa [show i + (m + 1) = i + 1 + m by omega] using this
    · rw [detectLoop_exit s hlt, detectLoop_exit s]
      intro hcon
      apply hlt
      push_cast at hcon ⊢
      have hk : (0 : ℚ) ≤ (k : ℚ) + 1 := by positivity
      linarith

theorem detectLoop_speechRegion {data : List ℚ} {t minSil : ℚ} (k : ℕ) :
    ∀ (fuel : ℕ) (i : ℕ) (s : ℚ) (acc : List SpeechChunk), 0 ≤ s →
    (∀ m, m < k → isAbove (sample? data ((i + m : ℕ) : ℚ)) t = true) →
    detectLoop data t minSil (k + fuel) (i : ℚ) s acc =
      detectLoop data t minSil fuel ((i + k : ℕ) : ℚ) s acc := by
  induction k with
  | zero => intro fuel i s acc _ _; simp
  | succ k ih =>
    intro fuel i s acc hs h
    have harr : k + 1 + fuel = (k + fuel) + 1 := by omega
    rw [harr, detectLoop_step_above s (by simpa using h 0 (by omega)),
      if_neg (not_lt.mpr hs)]
    have hcast : (i : ℚ) + 1 = ((i + 1 : ℕ) : ℚ) := by push_cast; ring
    rw [hcast, ih fuel (i + 1) s acc hs]
    · congr 1; push_cast; ring_nf
    · intro m hm
      have := h (m + 1) (by omega)
      simpa [show i + (m + 1) = i + 1 + m by omega] using this

theorem lookahead_none {data : List ℚ} {t jEnd : ℚ} :
    ∀ (fuel : ℕ) (j : ℕ),
    (∀ m : ℕ, isAbove (sample? data ((j + m : ℕ) : ℚ)) t = false) →
    lookahead data t jEnd fuel (j : ℚ) = none := by
  intro fuel
  induction fuel with
  | zero => intro j _; rfl
  | succ fuel ih =>
    intro j h
    rw [lookahead_succ]
    split
    · rw [if_neg, show (j : ℚ) + 1 = ((j + 1 : ℕ) : ℚ) by push_cast; ring,
        ih (j + 1)]
      · intro m
        have := h (m + 1)
        simpa [show j + (m + 1) = j + 1 + m by omega] using this
      · simpa using h 0
    · rfl

theorem lookahead_some_spec {data : List ℚ} {t jEnd : ℚ} :
    ∀ {fuel : ℕ} {j0 j : ℚ}, lookahead data t jEnd fuel j0 = some j →
      j0 ≤ j ∧ j < (data.length : ℚ) := by
  intro fuel
  induction fuel with
  | zero => intro j0 j h; simp [lookahead] at h
  | succ fuel ih =>
    intro j0 j h
    rw [lookahead_succ] at h
    split at h
    · rename_i hg
      split at h
      · cases h; exact ⟨le_refl _, hg.2⟩
      · have := ih h
        exact ⟨by linarith [this.1], this.2⟩
    · simp at h

theorem lookahead_finds {data : List ℚ} {t jEnd : ℚ} :
    ∀ (fuel m : ℕ) (j0 : ℕ), m < fuel →
    ((j0 + m : ℕ) : ℚ) < jEnd → (j0 + m : ℕ) < data.length →
    isAbove (sample? data ((j0 + m : ℕ) : ℚ)) t = true →
    ∃ jn : ℕ, j0 ≤ jn ∧ jn < data.length ∧
      lookahead data t jEnd fuel (j0 : ℚ) = some (jn : ℚ) := by
  intro fuel
  induction fuel with
  | zero => intro m j0 h; omega
  | succ fuel ih =>
    intro m j0 hm hend hlen habove
    have hg1 : (j0 : ℚ) < jEnd := by
      have : (j0 : ℚ) ≤ ((j0 + m : ℕ) : ℚ) := by push_cast; linarith
      linarith
    have hg2 : (j0 : ℚ) < (data.length : ℚ) := by
      have : j0 < data.length := by omega
      exact_mod_cast this
    rw [lookahead_succ, if_pos ⟨hg1, hg2⟩]
    by_cases hA : isAbove (sample? data (j0 : ℚ)) t = true
    · exact ⟨j0, le_refl _, by omega, by rw [if_pos hA]⟩
    · cases m with
      | zero => simp at hend hlen habove; exact absurd habove hA
      | succ m =>
        rw [if_neg hA, show (j0 : ℚ) + 1 = ((j0 + 1 : ℕ) : ℚ) by push_cast; ring]
        obtain ⟨jn, h1, h2, h3⟩ := ih m (j0 + 1) (by omega)
          (by rw [show j0 + 1 + m = j0 + (m + 1) by omega]; exact hend)
          (by omega)
          (by rw [show j0 + 1 + m = j0 + (m + 1) by omega]; exact habove)
        exact ⟨jn, by omega, h2, h3⟩

theorem detectFinish_wf {len : ℕ} {s : ℚ} {acc : List SpeechChunk}
    (h1 : 0 ≤ s → s < (len : ℚ))
    (h2 : 0 ≤ s → ∀ c ∈ acc, c.stop ≤ s)
    (h4 : List.Chain' (fun a b => a.stop ≤ b.start) acc)
    (h5 : ∀ c ∈ acc, 0 ≤ c.start ∧ c.start < c.stop ∧ c.stop ≤ (len : ℚ)) :
    chunksWF (detectFinish (acc, s) len) len := by
  unfold detectFinish
  by_cases hs : 0 ≤ s
  · rw [if_pos hs]
    constructor
    · rw [List.chain'_append]
      refine ⟨h4, List.chain'_singleton _, ?_⟩
      intro x hx y hy
      simp only [List.head?_cons, Option.mem_def, Option.some.injEq] at hy
      subst hy
      exact h2 hs x (List.mem_of_mem_getLast? hx)
    · intro c hc
      rcases List.mem_append.mp hc with h | h
      · exact h5 c h
      · simp only [List.mem_singleton] at h
        subst h
        exact ⟨hs, h1 hs, le_refl _⟩
  · rw [if_neg hs]
    exact ⟨h4, h5⟩

theorem detectLoop_step_skip {data : List ℚ} {t minSil i s j : ℚ}
    (hb : isBelow (sample? data i) t = true) (hs : 0 ≤ s)
    (hla : lookahead data t (i + minSil) (data.length + 1) i = some j)
    (fuel : ℕ) (acc : List SpeechChunk) :
    detectLoop data t minSil (fuel + 1) i s acc =
      detectLoop data t minSil fuel (j + 1) s acc := by
  have hlt : i < (data.length : ℚ) := sample?_isSome_lt (isBelow_isSome hb)
  rw [detectLoop_succ, if_pos hlt]
  simp only [isAbove_of_isBelow hb, Bool.false_eq_true, false_and, if_false, hb,
    true_and, if_pos hs, hla]

theorem detectLoop_step_push {data : List ℚ} {t minSil i s : ℚ}
    (hb : isBelow (sample? data i) t = true) (hs : 0 ≤ s)
    (hla : lookahead data t (i + minSil) (data.length + 1) i = none)
    (fuel : ℕ) (acc : List SpeechChunk) :
    detectLoop data t minSil (fuel + 1) i s acc =
      detectLoop data t minSil fuel (i + minSil + 1) (-1) (acc ++ [⟨s, i⟩]) := by
  have hlt : i < (data.length : ℚ) := sample?_isSome_lt (isBelow_isSome hb)
  rw [detectLoop_succ, if_pos hlt]
  simp only [isAbove_of_isBelow hb, Bool.false_eq_true, false_and, if_false, hb,
    true_and, if_pos hs, hla]

set_option maxHeartbeats 1600000 in
theorem detectLoop_invariant {data : List ℚ} {t minSil : ℚ} (hms : 0 ≤ minSil) :
    ∀ (fuel : ℕ) (i s : ℚ) (acc : List SpeechChunk),
    (0 ≤ s → s < i ∧ s < (data.length : ℚ)) →
    (0 ≤ s → ∀ c ∈ acc, c.stop ≤ s) →
    (s < 0 → ∀ c ∈ acc, c.stop ≤ i) →
    List.Chain' (fun a b => a.stop ≤ b.start) acc →
    (∀ c ∈ acc, 0 ≤ c.start ∧ c.start < c.stop ∧ c.stop ≤ (data.length : ℚ)) →
    chunksWF (detectFinish (detectLoop data t minSil fuel i s acc) data.length)
      data.length := by
  intro fuel
  induction fuel with
  | zero =>
    intro i s acc h1 h2 h3 h4 h5
    rw [detectLoop_zero]
    exact detectFinish_wf (fun hs => (h1 hs).2) h2 h4 h5
  | succ fuel ih =>
    intro i s acc h1 h2 h3 h4 h5
    by_cases hlt : i < (data.length : ℚ)
    · by_cases hA : isAbove (sample? data i) t = true
      · rw [detectLoop_step_above s hA]
        by_cases hs : s < 0
        · rw [if_pos hs]
          refine ih (i + 1) i acc ?_ ?_ ?_ h4 h5
          · intro _; exact ⟨by linarith, hlt⟩
          · intro _ c hc; exact h3 hs c hc
          · intro _ c hc
            exact le_trans (h3 hs c hc) (by linarith)
        · rw [if_neg hs]
          have hs' : 0 ≤ s := not_lt.mp hs
          refine ih (i + 1) s acc ?_ h2 ?_ h4 h5
          · intro _; exact ⟨by linarith [(h1 hs').1], (h1 hs').2⟩
          · intro hneg; exact absurd hs' (not_le.mpr hneg)
      · have hA' : isAbove (sample? data i) t = false := by
          simpa using hA
        by_cases hB : isBelow (sample? data i) t = true
        · by_cases hs0 : 0 ≤ s
          · cases hla : lookahead data t (i + minSil) (data.length + 1) i with
            | some j =>
              obtain ⟨hj1, hj2⟩ := lookahead_some_spec hla
              rw [detectLoop_step_skip hB hs0 hla]
              refine ih (j + 1) s acc ?_ h2 ?_ h4 h5
              · intro _
                exact ⟨by linarith [(h1 hs0).1], (h1 hs0).2⟩
              · intro hneg; exact absurd hs0 (not_le.mpr hneg)
            | none =>
              rw [detectLoop_step_push hB hs0 hla]
              refine ih (i + minSil + 1) (-1) (acc ++ [⟨s, i⟩]) ?_ ?_ ?_ ?_ ?_
              · intro hcon; norm_num at hcon
              · intro hcon; norm_num at hcon
              · intro _ c hc
                rcases List.mem_append.mp hc with h | h
                · have hcs := h2 hs0 c h
                  have hsi := (h1 hs0).1
                  linarith
                · simp only [List.mem_singleton] at h
                  subst h
                  show i ≤ i + minSil + 1
                  linarith
              · rw [List.chain'_append]
                refine ⟨h4, List.chain'_singleton _, ?_⟩
                intro x hx y hy
                simp only [List.head?_cons, Option.mem_def, Option.some.injEq] at hy
                subst hy
                exact h2 hs0 x (List.mem_of_mem_getLast? hx)
              · intro c hc
                rcases List.mem_append.mp hc with h | h
                · exact h5 c h
                · simp only [List.mem_singleton] at h
                  subst h
                  exact ⟨hs0, (h1 hs0).1, le_of_lt hlt⟩
          · have hs : s < 0 := not_le.mp hs0
            rw [detectLoop_step_noOpen hlt hA' hs]
            refine ih (i + 1) s acc ?_ h2 ?_ h4 h5
            · intro hcon; exact absurd hcon hs0
            · intro _ c hc
              exact le_trans (h3 hs c hc) (by linarith)
        · have hB' : isBelow (sample? data i) t = false := by
            simpa using hB
          rw [detectLoop_step_quiet hlt hA' hB']
          refine ih (i + 1) s acc ?_ h2 ?_ h4 h5
          · intro hs'; exact ⟨by linarith [(h1 hs').1], (h1 hs').2⟩
          · intro hneg c hc
            exact le_trans (h3 hneg c hc) (by linarith)
    · rw [detectLoop_exit s hlt]
      exact detectFinish_wf (fun hs => (h1 hs).2) h2 h4 h5

/-- **C2**: for every input buffer and settings (whose silence window
`sampleRate * minSilenceDuration` is nonnegative, as the documented setting
ranges guarantee), every chunk returned by segmentation satisfies
`0 ≤ start < end ≤ buffer length`, and consecutive chunks are ordered and
non-overlapping (each chunk's start is at least the previous chunk's end). -/
theorem claim_C2_chunk_invariants (b : SampleBuffer) (st : Settings)
    (hms : 0 ≤ minSilenceSamples b st) :
    chunksWF (detectSpeechChunks b st) b.length := by
  unfold detectSpeechChunks
  exact detectLoop_invariant hms _ 0 (-1) []
    (fun h => absurd h (by norm_num))
    (fun h => absurd h (by norm_num))
    (fun _ c hc => absurd hc (List.not_mem_nil c))
    List.chain'_nil
    (fun c hc => absurd hc (List.not_mem_nil c))

theorem claim_C2_chunk_invariants_witness :
    0 ≤ minSilenceSamples ⟨[[1/2, 0, 0, 1/2]], 1⟩ ⟨7/100, 2, 1⟩ ∧
      chunksWF (detectSpeechChunks ⟨[[1/2, 0, 0, 1/2]], 1⟩ ⟨7/100, 2, 1⟩) 4 :=
  ⟨of_decide_eq_true (by with_unfolding_all rfl),
    claim_C2_chunk_invariants ⟨[[1/2, 0, 0, 1/2]], 1⟩ ⟨7/100, 2, 1⟩
      (of_decide_eq_true (by with_unfolding_all rfl))⟩

theorem detectSpeechChunks_def (b : SampleBuffer) (st : Settings) :
    detectSpeechChunks b st =
      detectFinish
        (detectLoop (b.channels.headD []) st.silenceThreshold
          (minSilenceSamples b st) ((b.channels.headD []).length + 1) 0 (-1) [])
        (b.channels.headD []).length := rfl

theorem isAbove_of_mem_below {data : List ℚ} {t : ℚ}
    (h : ∀ x ∈ data, |x| < t) (m : ℕ) :
    isAbove (sample? data (m : ℚ)) t = false := by
  rw [sample?_natCast]
  cases hm : data.get? m with
  | none => rfl
  | some v =>
    have hv : v ∈ data := List.get?_mem hm
    simp only [isAbove, decide_eq_false_iff_not, not_lt]
    exact (h v hv).le

/-- **C5**: a buffer whose every sample magnitude is strictly below the
threshold segments to the empty chunk sequence, and whenever segmentation
is empty the Pace orchestrator fails with its no-speech error instead of
producing output. -/
theorem claim_C5_all_silent_fails (b : SampleBuffer) (st : Settings) :
    ((∀ x ∈ b.channels.headD [], |x| < st.silenceThreshold) →
      detectSpeechChunks b st = []) ∧
    (detectSpeechChunks b st = [] →
      (processAudioFile b st).2 = .error
        "Could not detect any speech. Please try adjusting the Silence Threshold slider to be lower.") := by
  constructor
  · intro h
    have h0 : (0 : ℚ) = ((0 : ℕ) : ℚ) := by norm_num
    rw [detectSpeechChunks_def, h0,
      detectLoop_skipRegion (b.channels.headD []).length 1 0 (-1) []
        (by norm_num) (fun m _ => isAbove_of_mem_below h (0 + m)),
      detectLoop_exit (-1) (by simp), detectFinish]
    norm_num
  · intro h
    unfold processAudioFile
    rw [h]
    rfl

theorem claim_C5_all_silent_fails_witness :
    (∀ x ∈ ([[0, 1/100, -1/20]] : List (List ℚ)).headD [], |x| < (7:ℚ)/100) ∧
      detectSpeechChunks ⟨[[0, 1/100, -1/20]], 16000⟩ ⟨7/100, 3/10, 1⟩ = [] ∧
      (processAudioFile ⟨[[0, 1/100, -1/20]], 16000⟩ ⟨7/100, 3/10, 1⟩).2 = .error
        "Could not detect any speech. Please try adjusting the Silence Threshold slider to be lower." := by
  refine ⟨of_decide_eq_true (by with_unfolding_all rfl), ?_, ?_⟩
  · exact (claim_C5_all_silent_fails ⟨[[0, 1/100, -1/20]], 16000⟩ ⟨7/100, 3/10, 1⟩).1
      (of_decide_eq_true (by with_unfolding_all rfl))
  · exact (claim_C5_all_silent_fails ⟨[[0, 1/100, -1/20]], 16000⟩ ⟨7/100, 3/10, 1⟩).2
      ((claim_C5_all_silent_fails ⟨[[0, 1/100, -1/20]], 16000⟩ ⟨7/100, 3/10, 1⟩).1
        (of_decide_eq_true (by with_unfolding_all rfl)))

theorem sample?_lt_length {data : List ℚ} {m : ℕ} (h : m < data.length) :
    sample? data (m : ℚ) = some (data.getD m 0) := by
  rw [sample?_natCast, List.getD_eq_getElem?_getD, List.get?_eq_getElem?,
    List.getElem?_eq_getElem h]
  rfl

theorem detectLoop_inSpeech {data : List ℚ} {t w : ℚ} {f : ℕ}
    (hnogap : ∀ i : ℕ, f ≤ i → i < data.length → |data.getD i 0| < t →
      ∃ j, i ≤ j ∧ j < data.length ∧ (j : ℚ) < (i : ℚ) + w ∧
        t < |data.getD j 0|) :
    ∀ (fuel : ℕ) (i : ℕ), f < i → data.length < i + fuel →
    detectLoop data t w fuel (i : ℚ) (f : ℚ) [] = ([], (f : ℚ)) := by
  intro fuel
  induction fuel with
  | zero => intro i _ _; rfl
  | succ fuel ih =>
    intro i hfi hlen
    by_cases hil : i < data.length
    · have hsome : sample? data (i : ℚ) = some (data.getD i 0) :=
        sample?_lt_length hil
      by_cases hAv : t < |data.getD i 0|
      · have hA : isAbove (sample? data (i : ℚ)) t = true := by
          rw [hsome]; simp only [isAbove, decide_eq_true_eq]; exact hAv
        rw [detectLoop_step_above _ hA, if_neg (not_lt.mpr (Nat.cast_nonneg f)),
          show (i : ℚ) + 1 = ((i + 1 : ℕ) : ℚ) by push_cast; ring]
        exact ih (i + 1) (by omega) (by omega)
      · by_cases hBv : |data.getD i 0| < t
        · have hB : isBelow (sample? data (i : ℚ)) t = true := by
            rw [hsome]; simp only [isBelow, decide_eq_true_eq]; exact hBv
          obtain ⟨j, hij, hjlen, hjw, hjab⟩ := hnogap i (by omega) hil hBv
          have hm : i + (j - i) = j := by omega
          obtain ⟨jn, hjn1, hjn2, hjn3⟩ :=
            lookahead_finds (data.length + 1) (j - i) i (by omega)
              (by rw [hm]; exact hjw)
              (by rw [hm]; exact hjlen)
              (by
                rw [hm, sample?_lt_length hjlen]
                simp only [isAbove, decide_eq_true_eq]
                exact hjab)
          rw [detectLoop_step_skip hB (Nat.cast_nonneg f) hjn3,
            show (jn : ℚ) + 1 = ((jn + 1 : ℕ) : ℚ) by push_cast; ring]
          exact ih (jn + 1) (by omega) (by omega)
        · have hA : isAbove (sample? data (i : ℚ)) t = false := by
            rw [hsome]; simp only [isAbove, decide_eq_false_iff_not]; exact hAv
          have hB : isBelow (sample? data (i : ℚ)) t = false := by
            rw [hsome]; simp only [isBelow, decide_eq_false_iff_not]; exact hBv
          rw [detectLoop_step_quiet (by exact_mod_cast hil) hA hB,
            show (i : ℚ) + 1 = ((i + 1 : ℕ) : ℚ) by push_cast; ring]
          exact ih (i + 1) (by omega) (by omega)
    · rw [detectLoop_exit _ (by exact_mod_cast hil)]

/-- **C3 (amended)**: if some sample exceeds the threshold, the first such
sample is at index `f`, and every *strictly below-threshold* sample at or
after `f` has a strictly-above-threshold sample within the (strict)
`minSilenceSamples` lookahead window *inside the buffer*, then segmentation
returns exactly one chunk from `f` to the buffer length.  (The original
claim's weaker precondition — no below-threshold run of length
`≥ minSilenceSamples` — is insufficient: a shorter trailing run that
reaches the buffer end also closes the chunk, see the counterexample.) -/
theorem claim_C3_single_chunk (b : SampleBuffer) (st : Settings) (f : ℕ)
    (hf : f < (b.channels.headD []).length)
    (hon : st.silenceThreshold < |(b.channels.headD []).getD f 0|)
    (hfirst : ∀ m, m < f → ¬ st.silenceThreshold < |(b.channels.headD []).getD m 0|)
    (hnogap : ∀ i : ℕ, f ≤ i → i < (b.channels.headD []).length →
      |(b.channels.headD []).getD i 0| < st.silenceThreshold →
      ∃ j, i ≤ j ∧ j < (b.channels.headD []).length ∧
        (j : ℚ) < (i : ℚ) + minSilenceSamples b st ∧
        st.silenceThreshold < |(b.channels.headD []).getD j 0|) :
    detectSpeechChunks b st =
      [⟨(f : ℚ), (((b.channels.headD []).length : ℕ) : ℚ)⟩] := by
  rw [detectSpeechChunks_def]
  rw [show (b.channels.headD []).length + 1 = f + (1 + ((b.channels.headD []).length - f))
    by omega]
  rw [show (0 : ℚ) = ((0 : ℕ) : ℚ) by norm_num]
  rw [detectLoop_skipRegion f (1 + ((b.channels.headD []).length - f)) 0 (-1) []
    (by norm_num) ?firstpart]
  case firstpart =>
    intro m hm
    rw [Nat.zero_add, sample?_lt_length (by omega)]
    simp only [isAbove, decide_eq_false_iff_not]
    exact hfirst m hm
  rw [show 1 + ((b.channels.headD []).length - f) = ((b.channels.headD []).length - f) + 1
    by omega]
  have hAf : isAbove (sample? (b.channels.headD []) ((0 + f : ℕ) : ℚ))
      st.silenceThreshold = true := by
    rw [Nat.zero_add, sample?_lt_length hf]
    simp only [isAbove, decide_eq_true_eq]
    exact hon
  rw [detectLoop_step_above _ hAf, if_pos (by norm_num),
    show ((0 + f : ℕ) : ℚ) + 1 = ((f + 1 : ℕ) : ℚ) by push_cast; ring,
    show ((0 + f : ℕ) : ℚ) = ((f : ℕ) : ℚ) by push_cast; ring,
    detectLoop_inSpeech hnogap _ (f + 1) (by omega) (by omega)]
  rw [detectFinish, if_pos (Nat.cast_nonneg f)]
  simp

theorem claim_C3_single_chunk_witness :
    detectSpeechChunks ⟨[[0, 1/2, 1/100, 1/2]], 1⟩ ⟨7/100, 2, 1⟩ = [⟨1, 4⟩] := by
  have h := claim_C3_single_chunk ⟨[[0, 1/2, 1/100, 1/2]], 1⟩ ⟨7/100, 2, 1⟩ 1
    (of_decide_eq_true (by with_unfolding_all rfl))
    (of_decide_eq_true (by with_unfolding_all rfl))
    (by
      intro m hm
      interval_cases m
      · exact of_decide_eq_false (by with_unfolding_all rfl))
    (by
      intro i h1 h2 h3
      have h4 : i < 4 := by simpa using h2
      interval_cases i
      · exact absurd h3 (of_decide_eq_false (by with_unfolding_all rfl))
      · exact ⟨3, by omega, of_decide_eq_true (by with_unfolding_all rfl),
          of_decide_eq_true (by with_unfolding_all rfl),
          of_decide_eq_true (by with_unfolding_all rfl)⟩
      · exact absurd h3 (of_decide_eq_false (by with_unfolding_all rfl)))
  exact h

/-- Counterexample to **C3** as stated: the buffer `[0.5, 0]` with
threshold `0.07` and a two-sample silence window has a sample above the
threshold and no below-threshold run of length `≥ 2`, yet segmentation
returns `[{0, 1}]` — the chunk ends at the start of the short trailing
silence, not at the buffer length `2`. -/
theorem claim_C3_counterexample :
    (∃ m, m < 2 ∧ (7 : ℚ)/100 < |([(1 : ℚ)/2, 0].getD m 0)|) ∧
    (∀ a : ℕ, a ≤ 2 → ∀ k : ℕ, k ≤ 2 → a + k ≤ 2 →
      minSilenceSamples ⟨[[1/2, 0]], 1⟩ ⟨7/100, 2, 1⟩ ≤ (k : ℚ) →
      ¬ ∀ m, m < k → |([(1 : ℚ)/2, 0].getD (a + m) 0)| < 7/100) ∧
    detectSpeechChunks ⟨[[1/2, 0]], 1⟩ ⟨7/100, 2, 1⟩ = [⟨0, 1⟩] ∧
    detectSpeechChunks ⟨[[1/2, 0]], 1⟩ ⟨7/100, 2, 1⟩ ≠ [⟨0, 2⟩] := by
  refine ⟨⟨0, by omega, of_decide_eq_true (by with_unfolding_all rfl)⟩, ?_, ?_, ?_⟩
  · intro a ha k hk hak hmin
    have hk2 : k = 2 := by
      by_contra hne
      have hk1 : k ≤ 1 := by omega
      have : ((k : ℕ) : ℚ) ≤ 1 := by exact_mod_cast hk1
      have h2 : minSilenceSamples ⟨[[1/2, 0]], 1⟩ ⟨7/100, 2, 1⟩ = 2 :=
        of_decide_eq_true (by with_unfolding_all rfl)
      rw [h2] at hmin
      linarith
    subst hk2
    have ha0 : a = 0 := by omega
    subst ha0
    intro hall
    have := hall 0 (by omega)
    simp only [Nat.add_zero, List.getD] at this
    exact absurd this (by exact of_decide_eq_false (by with_unfolding_all rfl))
  · exact of_decide_eq_true (by with_unfolding_all rfl)
  · intro h
    have : (⟨0, 1⟩ : SpeechChunk) = ⟨0, 2⟩ := by
      have h2 : detectSpeechChunks ⟨[[1/2, 0]], 1⟩ ⟨7/100, 2, 1⟩ = [⟨0, 1⟩] :=
        of_decide_eq_true (by with_unfolding_all rfl)
      rw [h2] at h
      exact List.singleton_injective h
    have : (1 : ℚ) = 2 := congrArg SpeechChunk.stop this
    norm_num at this

theorem toIntTrunc_natCast (n : ℕ) : toIntTrunc (n : ℚ) = n := by
  unfold toIntTrunc
  rw [if_pos (by positivity), Int.floor_natCast]

theorem subarrayQ_natCast (data : List ℚ) (b e : ℕ) :
    subarrayQ data (b : ℚ) (e : ℚ) =
      (data.drop (min b data.length)).take (min e data.length - min b data.length) := by
  unfold subarrayQ
  rw [toIntTrunc_natCast, toIntTrunc_natCast]
  dsimp only
  rw [if_neg (not_lt.mpr (Int.natCast_nonneg b)),
    if_neg (not_lt.mpr (Int.natCast_nonneg e)),
    show min (b : ℤ) (data.length : ℤ) = ((min b data.length : ℕ) : ℤ) by
      rw [Nat.cast_min],
    show min (e : ℤ) (data.length : ℤ) = ((min e data.length : ℕ) : ℤ) by
      rw [Nat.cast_min],
    Int.toNat_natCast, Int.toNat_sub]

theorem c1data_length : c1data.length = 64000 := by
  unfold c1data
  rw [List.length_append, List.length_replicate, List.length_replicate]

theorem c1_sample_lo {m : ℕ} (h : m < 8000) :
    sample? c1data (m : ℚ) = some (1/2) := by
  rw [sample?_natCast, List.get?_eq_getElem?]
  unfold c1data
  rw [List.getElem?_append_left (by rw [List.length_replicate]; exact h),
    List.getElem?_eq_getElem (by rw [List.length_replicate]; exact h),
    List.getElem_replicate]

theorem c1_sample_hi {m : ℕ} (h1 : 8000 ≤ m) (h2 : m < 64000) :
    sample? c1data (m : ℚ) = some 0 := by
  rw [sample?_natCast, List.get?_eq_getElem?]
  unfold c1data
  rw [List.getElem?_append_right (by rw [List.length_replicate]; exact h1),
    List.getElem?_eq_getElem
      (by rw [List.length_replicate, List.length_replicate]; omega),
    List.getElem_replicate]

theorem c1_sample_none {m : ℕ} (h : 64000 ≤ m) :
    sample? c1data (m : ℚ) = none := by
  rw [sample?_natCast, List.get?_eq_getElem?,
    List.getElem?_eq_none (by rw [c1data_length]; omega)]

theorem c1_above_lo {m : ℕ} (h : m < 8000) :
    isAbove (sample? c1data (m : ℚ)) (7/100) = true := by
  rw [c1_sample_lo h]
  simp only [isAbove, decide_eq_true_eq]
  rw [abs_of_pos (show (0 : ℚ) < 1/2 by norm_num)]
  norm_num

theorem c1_above_false {m : ℕ} (h : 8000 ≤ m) :
    isAbove (sample? c1data (m : ℚ)) (7/100) = false := by
  by_cases h2 : m < 64000
  · rw [c1_sample_hi h h2]
    simp only [isAbove, decide_eq_false_iff_not, not_lt]
    norm_num
  · rw [c1_sample_none (by omega)]
    rfl

theorem c1_below_8000 :
    isBelow (sample? c1data ((8000 : ℕ) : ℚ)) (7/100) = true := by
  rw [c1_sample_hi (le_refl _) (by norm_num)]
  simp only [isBelow, decide_eq_true_eq]
  norm_num

theorem c1_detect : detectSpeechChunks c1buffer c1settings = [⟨0, 8000⟩] := by
  have hms : minSilenceSamples c1buffer c1settings = 4800 := by
    unfold minSilenceSamples c1buffer c1settings
    norm_num
  have hchan : c1buffer.channels.headD [] = c1data := rfl
  have hthr : c1settings.silenceThreshold = 7/100 := rfl
  rw [detectSpeechChunks_def, hchan, hthr, hms, c1data_length]
  have hA0 : isAbove (sample? c1data 0) ((7 : ℚ)/100) = true := by
    rw [show (0 : ℚ) = ((0 : ℕ) : ℚ) by norm_num]
    exact c1_above_lo (by norm_num)
  rw [detectLoop_step_above (-1) hA0, if_pos (by norm_num : (-1 : ℚ) < 0),
    show (0 : ℚ) + 1 = ((1 : ℕ) : ℚ) by norm_num,
    show (64000 : ℕ) = 7999 + 56001 by norm_num,
    detectLoop_speechRegion 7999 56001 1 0 [] (le_refl 0)
      (fun m hm => c1_above_lo (by omega)),
    show (1 + 7999 : ℕ) = 8000 by norm_num]
  have hla : lookahead c1data (7/100) (((8000 : ℕ) : ℚ) + 4800)
      (c1data.length + 1) ((8000 : ℕ) : ℚ) = none :=
    lookahead_none _ 8000 (fun m => c1_above_false (by omega))
  rw [show (56001 : ℕ) = 56000 + 1 by norm_num,
    detectLoop_step_push c1_below_8000 (by norm_num) hla,
    List.nil_append,
    show ((8000 : ℕ) : ℚ) + 4800 + 1 = ((12801 : ℕ) : ℚ) by push_cast; norm_num,
    show (56000 : ℕ) = 51199 + 4801 by norm_num,
    detectLoop_skipRegion 51199 4801 12801 (-1) _ (by norm_num)
      (fun m hm => c1_above_false (by omega)),
    show (12801 + 51199 : ℕ) = 64000 by norm_num,
    detectLoop_exit _ (by rw [c1data_length]; push_cast; norm_num),
    detectFinish, if_neg (by norm_num)]
  norm_num

theorem copyChunksAux_nil (data : List ℚ) (pm pos : ℚ) (nd : List ℚ) :
    copyChunksAux data pm [] pos nd = some nd := rfl

theorem copyChunksAux_cons (data : List ℚ) (pm : ℚ) (c : SpeechChunk)
    (rest : List SpeechChunk) (pos : ℚ) (nd : List ℚ) :
    copyChunksAux data pm (c :: rest) pos nd =
      match writeAt nd (jsRound pos) (subarrayQ data c.start c.stop) with
      | none => none
      | some nd2 =>
        copyChunksAux data pm rest
          (pos + (c.stop - c.start) + (c.stop - c.start) * pm) nd2 := rfl

theorem createPaddedAudio_def (b : SampleBuffer) (chunks : List SpeechChunk)
    (st : Settings) :
    createPaddedAudio b chunks st =
      if paddedTotalLength chunks st.pauseMultiplier = 0 then
        .error "No speech detected in the audio file. Try adjusting the silence threshold."
      else
        match mkBuffer b.numberOfChannels
            ⌈paddedTotalLength chunks st.pauseMultiplier⌉ b.sampleRate with
        | .error e => .error e
        | .ok newBuffer =>
          match (b.channels.zip newBuffer.channels).mapM
              (fun p => copyChunksAux p.1 st.pauseMultiplier chunks 0 p.2) with
          | none => .error "RangeError: offset is out of bounds"
          | some newChannels => .ok ⟨newChannels, newBuffer.sampleRate⟩ := rfl

theorem createPaddedAudio_ok {b : SampleBuffer} {chunks : List SpeechChunk}
    {st : Settings} {nb : SampleBuffer}
    (hne : paddedTotalLength chunks st.pauseMultiplier ≠ 0)
    (hmk : mkBuffer b.numberOfChannels
      ⌈paddedTotalLength chunks st.pauseMultiplier⌉ b.sampleRate = .ok nb)
    {newChannels : List (List ℚ)}
    (hmap : (b.channels.zip nb.channels).mapM
      (fun p => copyChunksAux p.1 st.pauseMultiplier chunks 0 p.2) =
        some newChannels) :
    createPaddedAudio b chunks st = .ok ⟨newChannels, nb.sampleRate⟩ := by
  rw [createPaddedAudio_def, if_neg hne, hmk]
  dsimp only
  rw [hmap]

theorem c1_totalLength :
    paddedTotalLength [⟨0, 8000⟩] c1settings.pauseMultiplier = 16000 := by
  unfold paddedTotalLength c1settings
  rw [List.foldl_cons, List.foldl_nil]
  norm_num

theorem c1_subarray : subarrayQ c1data 0 8000 = List.replicate 8000 ((1 : ℚ)/2) := by
  rw [show (0 : ℚ) = ((0 : ℕ) : ℚ) by norm_num,
    show (8000 : ℚ) = ((8000 : ℕ) : ℚ) by norm_num,
    subarrayQ_natCast, c1data_length,
    show min 0 64000 = 0 by norm_num, List.drop_zero,
    show min 8000 64000 - 0 = 8000 by norm_num]
  unfold c1data
  rw [List.take_left' (by rw [List.length_replicate])]

theorem c1_write : writeAt (List.replicate 16000 0) (jsRound 0)
    (List.replicate 8000 ((1 : ℚ)/2)) =
    some (List.replicate 8000 (1/2) ++ List.replicate 8000 0) := by
  rw [show jsRound 0 = 0 by unfold jsRound; norm_num]
  unfold writeAt
  rw [if_pos ⟨le_refl 0, by
    rw [Int.toNat_zero, List.length_replicate, List.length_replicate]
    norm_num⟩]
  rw [Int.toNat_zero, List.take_zero, List.nil_append, List.length_replicate,
    show (0 + 8000 : ℕ) = 8000 by norm_num, List.drop_replicate,
    show (16000 - 8000 : ℕ) = 8000 by norm_num]

theorem c1_copy : copyChunksAux c1data c1settings.pauseMultiplier [⟨0, 8000⟩] 0
    (List.replicate 16000 0) =
    some (List.replicate 8000 (1/2) ++ List.replicate 8000 0) := by
  rw [copyChunksAux_cons,
    show (⟨0, 8000⟩ : SpeechChunk).start = 0 from rfl,
    show (⟨0, 8000⟩ : SpeechChunk).stop = 8000 from rfl,
    c1_subarray, c1_write]
  dsimp only
  rw [copyChunksAux_nil]

theorem c1_mkBuffer : mkBuffer c1buffer.numberOfChannels
    ⌈paddedTotalLength [⟨0, 8000⟩] c1settings.pauseMultiplier⌉
    c1buffer.sampleRate = .ok ⟨[List.replicate 16000 0], 16000⟩ := by
  rw [c1_totalLength, show ⌈(16000 : ℚ)⌉ = (16000 : ℤ) by norm_num]
  unfold mkBuffer c1buffer SampleBuffer.numberOfChannels
  rw [if_pos ⟨by norm_num, by norm_num⟩]
  rfl

theorem c1_mapM : ((c1buffer.channels).zip
    (⟨[List.replicate 16000 0], 16000⟩ : SampleBuffer).channels).mapM
    (fun p => copyChunksAux p.1 c1settings.pauseMultiplier [⟨0, 8000⟩] 0 p.2) =
    some [List.replicate 8000 (1/2) ++ List.replicate 8000 0] := by
  rw [show (c1buffer.channels).zip
      (⟨[List.replicate 16000 0], 16000⟩ : SampleBuffer).channels =
      [(c1data, List.replicate 16000 0)] from rfl,
    List.mapM_cons, List.mapM_nil, c1_copy]
  rfl

theorem c1_padded :
    createPaddedAudio c1buffer [⟨0, 8000⟩] c1settings =
      .ok ⟨[List.replicate 8000 (1/2) ++ List.replicate 8000 0], 16000⟩ :=
  createPaddedAudio_ok (by rw [c1_totalLength]; norm_num) c1_mkBuffer c1_mapM

/-- **C1**: on the concrete 64000-sample, 16 kHz mono buffer with magnitude
`1/2` on `[0, 8000)` and `0` on `[8000, 64000)`, with threshold `7/100`,
`minSilenceDuration 3/10` (window `4800`) and `pauseMultiplier 1`,
segmentation returns exactly `[{start 0, end 8000}]`, and resynthesis with
that chunk returns a 16000-sample buffer whose first 8000 samples equal the
source samples `[0, 8000)` and whose remaining 8000 samples are zero. -/
theorem claim_C1_roundtrip :
    detectSpeechChunks c1buffer c1settings = [⟨0, 8000⟩] ∧
    createPaddedAudio c1buffer [⟨0, 8000⟩] c1settings =
      .ok ⟨[List.replicate 8000 (1/2) ++ List.replicate 8000 0], 16000⟩ ∧
    SampleBuffer.length
      ⟨[List.replicate 8000 ((1 : ℚ)/2) ++ List.replicate 8000 0], 16000⟩ = 16000 ∧
    (List.replicate 8000 ((1 : ℚ)/2) ++ List.replicate 8000 0).take 8000 =
      c1data.take 8000 ∧
    (List.replicate 8000 ((1 : ℚ)/2) ++ List.replicate 8000 0).drop 8000 =
      List.replicate 8000 0 := by
  refine ⟨c1_detect, c1_padded, ?_, ?_, ?_⟩
  · show (List.replicate 8000 ((1 : ℚ)/2) ++ List.replicate 8000 0).length = 16000
    rw [List.length_append, List.length_replicate, List.length_replicate]
  · rw [List.take_left' (by rw [List.length_replicate])]
    unfold c1data
    rw [List.take_left' (by rw [List.length_replicate])]
  · rw [List.drop_left' (by rw [List.length_replicate])]

/-- Counterexample to **C8** as stated: at sample rate `1` and
`minSilenceDuration 3/10`, the silence window stored by the code is the raw
product `3/10`, which is not the nearest integer `0` to that product. -/
theorem claim_C8_counterexample :
    minSilenceSamples ⟨[[0]], 1⟩ ⟨7/100, 3/10, 1⟩ = 3/10 ∧
    ((jsRound ((⟨[[0]], 1⟩ : SampleBuffer).sampleRate *
      (⟨7/100, 3/10, 1⟩ : Settings).minSilenceDuration) : ℤ) : ℚ) = 0 ∧
    (3 : ℚ)/10 ≠ 0 := by
  refine ⟨of_decide_eq_true (by with_unfolding_all rfl),
    of_decide_eq_true (by with_unfolding_all rfl), by norm_num⟩

/-- **C8 (amended)**: the silence window used by segmentation is the raw
product `sampleRate * minSilenceDuration`, with no rounding applied; it
coincides with the rounded value exactly when the product is an integer. -/
theorem claim_C8_window (b : SampleBuffer) (st : Settings) :
    minSilenceSamples b st = b.sampleRate * st.minSilenceDuration ∧
    ((b.sampleRate * st.minSilenceDuration).den = 1 →
      minSilenceSamples b st =
        ((jsRound (b.sampleRate * st.minSilenceDuration) : ℤ) : ℚ)) := by
  refine ⟨rfl, fun h => ?_⟩
  have hq : ((b.sampleRate * st.minSilenceDuration).num : ℚ) =
      b.sampleRate * st.minSilenceDuration := by
    rw [← Rat.den_eq_one_iff]; exact h
  unfold minSilenceSamples jsRound
  rw [← hq, add_comm, Int.floor_add_int, show ⌊(1 : ℚ)/2⌋ = 0 by norm_num,
    zero_add]

theorem claim_C8_window_witness :
    minSilenceSamples ⟨[[0]], 16000⟩ ⟨7/100, 3/10, 1⟩ =
      (⟨[[0]], 16000⟩ : SampleBuffer).sampleRate *
        (⟨7/100, 3/10, 1⟩ : Settings).minSilenceDuration ∧
    minSilenceSamples ⟨[[0]], 16000⟩ ⟨7/100, 3/10, 1⟩ =
      ((jsRound ((⟨[[0]], 16000⟩ : SampleBuffer).sampleRate *
        (⟨7/100, 3/10, 1⟩ : Settings).minSilenceDuration) : ℤ) : ℚ) :=
  ⟨(claim_C8_window ⟨[[0]], 16000⟩ ⟨7/100, 3/10, 1⟩).1,
    (claim_C8_window ⟨[[0]], 16000⟩ ⟨7/100, 3/10, 1⟩).2
      (of_decide_eq_true (by with_unfolding_all rfl))⟩

theorem toInt16_clamped (x : ℚ) :
    toInt16 (max (-1) (min 1 x) * 32767) = convertSampleClamped x ∧
    -32767 ≤ convertSampleClamped x ∧ convertSampleClamped x ≤ 32767 := by
  have hc1 : -1 ≤ max (-1) (min 1 x) := le_max_left _ _
  have hc2 : max (-1) (min 1 x) ≤ 1 := max_le (by norm_num) (min_le_left _ _)
  have hlo : -32767 ≤ max (-1) (min 1 x) * 32767 := by nlinarith
  have hhi : max (-1) (min 1 x) * 32767 ≤ 32767 := by nlinarith
  have htr_lo : -32767 ≤ toIntTrunc (max (-1) (min 1 x) * 32767) := by
    unfold toIntTrunc
    split
    · rename_i h
      have h0 : (0 : ℤ) ≤ ⌊max (-1) (min 1 x) * 32767⌋ := Int.floor_nonneg.mpr h
      omega
    · have hcast : ((-32767 : ℤ) : ℚ) ≤ max (-1) (min 1 x) * 32767 := by
        push_cast; exact hlo
      have h2 := Int.ceil_le_ceil hcast
      rw [Int.ceil_intCast] at h2
      exact h2
  have htr_hi : toIntTrunc (max (-1) (min 1 x) * 32767) ≤ 32767 := by
    unfold toIntTrunc
    split
    · calc ⌊max (-1) (min 1 x) * 32767⌋ ≤ ⌊(32767 : ℚ)⌋ := Int.floor_le_floor hhi
        _ = 32767 := by norm_num
    · rename_i h
      have h0 : ⌈max (-1) (min 1 x) * 32767⌉ ≤ ⌈(0 : ℚ)⌉ :=
        Int.ceil_le_ceil (le_of_lt (not_le.mp h))
      have h1 : ⌈(0 : ℚ)⌉ = 0 := by norm_num
      omega
  refine ⟨?_, ?_, ?_⟩
  · unfold toInt16 convertSampleClamped
    rw [Int.emod_eq_of_lt (by omega) (by omega)]
    ring
  · exact htr_lo
  · exact htr_hi

/-- **C10**: the encoder's 16-bit conversion equals clamp-to-`[-1,1]`,
scale by `32767`, truncate toward zero — the wrap step of the integer store
never fires — and every produced value lies in `[-32767, 32767]` (so
`-32768` never occurs and out-of-range inputs are clamped, not wrapped). -/
theorem claim_C10_encoder_conversion (buffer : List ℚ) :
    convertBuffer buffer = buffer.map convertSampleClamped ∧
    ∀ y ∈ convertBuffer buffer, -32767 ≤ y ∧ y ≤ 32767 := by
  constructor
  · unfold convertBuffer
    exact List.map_congr_left (fun x _ => (toInt16_clamped x).1)
  · intro y hy
    unfold convertBuffer at hy
    rw [List.mem_map] at hy
    obtain ⟨x, _, rfl⟩ := hy
    rw [(toInt16_clamped x).1]
    exact (toInt16_clamped x).2

theorem claim_C10_encoder_conversion_witness :
    convertBuffer [2, -3/2, 1/4] = [2, -3/2, 1/4].map convertSampleClamped ∧
    (32767 : ℤ) ∈ convertBuffer [2, -3/2, 1/4] ∧
    -32767 ≤ (32767 : ℤ) ∧ (32767 : ℤ) ≤ 32767 :=
  ⟨(claim_C10_encoder_conversion [2, -3/2, 1/4]).1,
    of_decide_eq_true (by with_unfolding_all rfl),
    (claim_C10_encoder_conversion [2, -3/2, 1/4]).2 32767
      (of_decide_eq_true (by with_unfolding_all rfl))⟩

theorem writeAt_at_end {pre : List ℚ} {offset : ℕ} (h : pre.length = offset)
    (src : List ℚ) (k : ℕ) (hk : src.length ≤ k) :
    writeAt (pre ++ List.replicate k 0) (offset : ℤ) src =
      some ((pre ++ src) ++ List.replicate (k - src.length) 0) := by
  unfold writeAt
  rw [if_pos ⟨by positivity, by
    rw [Int.toNat_natCast, List.length_append, List.length_replicate]
    omega⟩]
  rw [Int.toNat_natCast, ← h, List.take_left, List.drop_append,
    List.drop_replicate]

theorem mapM_writeAt (offset k : ℕ) : ∀ (pres chs : List (List ℚ)),
    pres.length = chs.length →
    (∀ p ∈ pres, p.length = offset) →
    (∀ ch ∈ chs, ch.length ≤ k) →
    ((pres.map (fun p => p ++ List.replicate k 0)).zip chs).mapM
      (fun pr => writeAt pr.1 (offset : ℤ) pr.2) =
      some (List.zipWith (fun p ch => (p ++ ch) ++ List.replicate (k - ch.length) 0)
        pres chs) := by
  intro pres
  induction pres with
  | nil => intro chs _ _ _; rfl
  | cons p pres ih =>
    intro chs hlen h1 h2
    cases chs with
    | nil => simp at hlen
    | cons ch chs =>
      rw [List.map_cons, List.zip_cons_cons, List.mapM_cons,
        writeAt_at_end (h1 p (List.mem_cons_self p pres)) ch k
          (h2 ch (List.mem_cons_self ch chs)),
        ih chs (by simpa using hlen)
          (fun q hq => h1 q (List.mem_cons_of_mem p hq))
          (fun c hc => h2 c (List.mem_cons_of_mem ch hc)),
        List.zipWith_cons_cons]
      rfl

theorem zipWith_append_mem :
    ∀ (l1 l2 : List (List ℚ)) (x : List ℚ),
    x ∈ List.zipWith (fun a b => a ++ b) l1 l2 →
    ∃ a ∈ l1, ∃ b ∈ l2, x = a ++ b := by
  intro l1
  induction l1 with
  | nil => intro l2 x h; simp at h
  | cons a l1 ih =>
    intro l2 x h
    cases l2 with
    | nil => simp at h
    | cons b l2 =>
      rw [List.zipWith_cons_cons] at h
      rcases List.mem_cons.mp h with h | h
      · exact ⟨a, List.mem_cons_self a l1, b, List.mem_cons_self b l2, h⟩
      · obtain ⟨a', ha, b', hb, hx⟩ := ih l2 x h
        exact ⟨a', List.mem_cons_of_mem a ha, b', List.mem_cons_of_mem b hb, hx⟩

theorem zipWith_congr_mem {α β γ : Type} (f g : α → β → γ) :
    ∀ (l1 : List α) (l2 : List β),
    (∀ a ∈ l1, ∀ b ∈ l2, f a b = g a b) →
    List.zipWith f l1 l2 = List.zipWith g l1 l2 := by
  intro l1
  induction l1 with
  | nil => intro l2 _; rfl
  | cons a l1 ih =>
    intro l2 h
    cases l2 with
    | nil => rfl
    | cons b l2 =>
      rw [List.zipWith_cons_cons, List.zipWith_cons_cons,
        h a (List.mem_cons_self a l1) b (List.mem_cons_self b l2),
        ih l2 (fun x hx y hy =>
          h x (List.mem_cons_of_mem a hx) y (List.mem_cons_of_mem b hy))]

theorem mergeCopy_spec : ∀ (bs : List SampleBuffer) (offset T : ℕ)
    (pres : List (List ℚ)),
    (∀ b ∈ bs, b.channels.length = pres.length) →
    (∀ b ∈ bs, ∀ ch ∈ b.channels, ch.length = b.length) →
    (∀ p ∈ pres, p.length = offset) →
    offset + (bs.map SampleBuffer.length).sum ≤ T →
    ∃ final,
      mergeCopy bs offset (pres.map (fun p => p ++ List.replicate (T - offset) 0)) =
        some final ∧
      final.length = pres.length ∧
      ∀ j, j < pres.length →
        final.getD j [] = pres.getD j [] ++
          ((bs.map (fun b => b.channels.getD j [])).flatten ++
            List.replicate (T - offset - (bs.map SampleBuffer.length).sum) 0) := by
  intro bs
  induction bs with
  | nil =>
    intro offset T pres _ _ h3 _
    refine ⟨pres.map (fun p => p ++ List.replicate (T - offset) 0), rfl,
      by rw [List.length_map], ?_⟩
    intro j hj
    rw [List.getD_eq_getElem _ _ (by rw [List.length_map]; exact hj),
      List.getElem_map, List.getD_eq_getElem _ _ hj]
    simp
  | cons b rest ih =>
    intro offset T pres h1 h2 h3 h4
    have hb1 : b.channels.length = pres.length := h1 b (List.mem_cons_self b rest)
    have hsum : offset + (b.length +
        (rest.map SampleBuffer.length).sum) ≤ T := by
      simpa using h4
    have hmm := mapM_writeAt offset (T - offset) pres b.channels hb1.symm h3
      (fun ch hch => by rw [h2 b (List.mem_cons_self b rest) ch hch]; omega)
    unfold mergeCopy
    rw [hmm]
    have hacc : List.zipWith
        (fun p ch => (p ++ ch) ++ List.replicate (T - offset - ch.length) 0)
        pres b.channels =
        (List.zipWith (fun a b => a ++ b) pres b.channels).map
          (fun p => p ++ List.replicate (T - (offset + b.length)) 0) := by
      rw [List.map_zipWith]
      apply zipWith_congr_mem
      intro p _ ch hch
      rw [h2 b (List.mem_cons_self b rest) ch hch,
        show T - offset - b.length = T - (offset + b.length) by omega]
    rw [hacc]
    obtain ⟨final, hrun, hlen, hspec⟩ := ih (offset + b.length) T
      (List.zipWith (fun a b => a ++ b) pres b.channels)
      (fun b' hb' => by
        rw [List.length_zipWith, hb1, min_self]
        exact h1 b' (List.mem_cons_of_mem b hb'))
      (fun b' hb' => h2 b' (List.mem_cons_of_mem b hb'))
      (fun p hp => by
        obtain ⟨a, ha, c, hc, hx⟩ := zipWith_append_mem pres b.channels p hp
        rw [hx, List.length_append, h3 a ha,
          h2 b (List.mem_cons_self b rest) c hc])
      (by omega)
    refine ⟨final, hrun, by
      rw [hlen, List.length_zipWith, hb1, min_self], ?_⟩
    intro j hj
    have hj' : j < (List.zipWith (fun a b => a ++ b) pres b.channels).length := by
      rw [List.length_zipWith, hb1, min_self]; exact hj
    rw [hspec j (by rw [List.length_zipWith, hb1, min_self]; exact hj),
      List.getD_eq_getElem _ _ hj', List.getElem_zipWith]
    rw [List.map_cons, List.flatten_cons]
    rw [List.getD_eq_getElem _ _ hj,
      List.getD_eq_getElem _ _ (by omega : j < b.channels.length)]
    rw [show (List.map SampleBuffer.length (b :: rest)).sum =
      b.length + (rest.map SampleBuffer.length).sum by simp]
    rw [show T - (offset + b.length) - (rest.map SampleBuffer.length).sum =
      T - offset - (b.length + (rest.map SampleBuffer.length).sum) by omega]
    simp [List.append_assoc]

theorem validateAndSum_ok {rate : ℚ} {n : ℕ} : ∀ {bs : List SampleBuffer},
    (∀ b ∈ bs, b.sampleRate = rate ∧ b.numberOfChannels = n) →
    validateAndSum rate n bs = .ok (bs.map SampleBuffer.length).sum := by
  intro bs
  induction bs with
  | nil => intro _; rfl
  | cons b rest ih =>
    intro h
    unfold validateAndSum
    rw [if_neg (by
        rw [not_ne_iff]
        exact (h b (List.mem_cons_self b rest)).1),
      if_neg (by
        rw [not_ne_iff]
        exact (h b (List.mem_cons_self b rest)).2),
      ih (fun x hx => h x (List.mem_cons_of_mem b hx))]
    rw [List.map_cons, List.sum_cons]

theorem validateAndSum_error {rate : ℚ} {n : ℕ} : ∀ {bs : List SampleBuffer},
    (∃ b ∈ bs, b.sampleRate ≠ rate ∨ b.numberOfChannels ≠ n) →
    ∃ e, validateAndSum rate n bs = .error e ∧
      (e = "Mismatched sample rates. All files must have a sample rate of " ++
        toString rate ++ " Hz." ∨
       e = "Mismatched channel counts. All files must have " ++
        toString n ++ " channel(s).") := by
  intro bs
  induction bs with
  | nil => intro h; obtain ⟨b, hb, _⟩ := h; exact absurd hb (List.not_mem_nil b)
  | cons b rest ih =>
    intro h
    unfold validateAndSum
    by_cases hr : b.sampleRate ≠ rate
    · exact ⟨_, by rw [if_pos hr], Or.inl rfl⟩
    · rw [if_neg hr]
      by_cases hc : b.numberOfChannels ≠ n
      · exact ⟨_, by rw [if_pos hc], Or.inr rfl⟩
      · rw [if_neg hc]
        have hrest : ∃ b ∈ rest, b.sampleRate ≠ rate ∨ b.numberOfChannels ≠ n := by
          obtain ⟨b', hb', hor⟩ := h
          rcases List.mem_cons.mp hb' with heq | hmem
          · subst heq
            rcases hor with h' | h'
            · exact absurd h' hr
            · exact absurd h' hc
          · exact ⟨b', hmem, hor⟩
        obtain ⟨e, he, hmsg⟩ := ih hrest
        exact ⟨e, by rw [he], hmsg⟩

/-- **C7**: merge with fewer than two inputs fails with its count error;
merge over two or more decoded buffers in which some buffer's sample rate
or channel count differs from the first buffer's fails — before any
copying, so no output buffer is produced — with an error naming the
expected value (the first buffer's). -/
theorem claim_C7_merge_validation (files : List (String × SampleBuffer)) :
    (files.length < 2 →
      mergeAudioFiles files =
        ([], .error "At least two files are required to merge.")) ∧
    (2 ≤ files.length →
      (∃ b ∈ files.map Prod.snd,
        b.sampleRate ≠ ((files.map Prod.snd).headD default).sampleRate ∨
        b.numberOfChannels ≠
          ((files.map Prod.snd).headD default).numberOfChannels) →
      ∃ e, (mergeAudioFiles files).2 = .error e ∧
        (e = "Mismatched sample rates. All files must have a sample rate of " ++
          toString ((files.map Prod.snd).headD default).sampleRate ++ " Hz." ∨
         e = "Mismatched channel counts. All files must have " ++
          toString ((files.map Prod.snd).headD default).numberOfChannels ++
            " channel(s).")) := by
  constructor
  · intro h
    unfold mergeAudioFiles
    rw [if_pos h]
  · intro h2 hmis
    obtain ⟨e, he, hmsg⟩ := validateAndSum_error hmis
    unfold mergeAudioFiles
    rw [if_neg (not_lt.mpr h2)]
    dsimp only
    rw [he]
    exact ⟨e, rfl, hmsg⟩

theorem claim_C7_merge_validation_witness :
    mergeAudioFiles [("a", ⟨[[0]], 44100⟩)] =
      ([], .error "At least two files are required to merge.") ∧
    ∃ e, (mergeAudioFiles [("a", ⟨[[0]], 44100⟩), ("b", ⟨[[0]], 48000⟩)]).2 =
      .error e := by
  constructor
  · exact (claim_C7_merge_validation [("a", ⟨[[0]], 44100⟩)]).1 (by norm_num)
  · obtain ⟨e, he, _⟩ :=
      (claim_C7_merge_validation
        [("a", ⟨[[0]], 44100⟩), ("b", ⟨[[0]], 48000⟩)]).2 (by norm_num)
        ⟨⟨[[0]], 48000⟩,
          List.mem_cons_of_mem _ (List.mem_cons_self _ _),
          Or.inl (of_decide_eq_true (by with_unfolding_all rfl))⟩
    exact ⟨e, he⟩

/-- Counterexample to **C9** as stated: a successful two-file merge emits
five progress messages, not `fileCount + 2 = 4` — the loop messages (one
per file) come in addition to the initial step announcement, the
validation message and the merging message. -/
theorem claim_C9_counterexample :
    (mergeAudioFiles [("a", ⟨[[1]], 8⟩), ("b", ⟨[[2]], 8⟩)]).2.isOk = true ∧
    (mergeAudioFiles [("a", ⟨[[1]], 8⟩), ("b", ⟨[[2]], 8⟩)]).1.length = 5 ∧
    [("a", (⟨[[1]], 8⟩ : SampleBuffer)), ("b", ⟨[[2]], 8⟩)].length + 2 = 4 ∧
    (5 : ℕ) ≠ 4 := by
  refine ⟨of_decide_eq_true (by with_unfolding_all rfl),
    of_decide_eq_true (by with_unfolding_all rfl), rfl, by norm_num⟩

/-- **C9 (amended)**: a successful Merge run invokes the progress sink
`fileCount + 3` times, with exactly these messages in order: the decode
stage announcement `Step 1/(n+2): Decoding audio files...`, one
`Decoding i/n: name...` message per decoded file, then
`Step (n+1)/(n+2): Validating audio properties...` and
`Step (n+2)/(n+2): Merging audio...`; a successful Pace run invokes it
exactly four times, once per stage (decode, analyze, reconstruct,
encode). -/
theorem claim_C9_progress_messages (files : List (String × SampleBuffer))
    (b : SampleBuffer) (st : Settings) :
    ((mergeAudioFiles files).2.isOk = true →
      (mergeAudioFiles files).1 =
        ((("Step 1/" ++ toString (files.length + 2) ++ ": Decoding audio files...") ::
            files.enum.map (fun p =>
              "Decoding " ++ toString (p.1 + 1) ++ "/" ++ toString files.length ++
                ": " ++ p.2.1 ++ "...")) ++
          ["Step " ++ toString (files.length + 1) ++ "/" ++
            toString (files.length + 2) ++ ": Validating audio properties..."]) ++
        ["Step " ++ toString (files.length + 2) ++ "/" ++
          toString (files.length + 2) ++ ": Merging audio..."] ∧
      (mergeAudioFiles files).1.length = files.length + 3) ∧
    ((processAudioFile b st).2.isOk = true →
      (processAudioFile b st).1 =
        ["Step 1/4: Decoding audio...", "Step 2/4: Analyzing for speech...",
          "Step 3/4: Reconstructing audio with pauses... (found " ++
            toString (detectSpeechChunks b st).length ++ " phrases)",
          "Step 4/4: Encoding final MP3 file..."] ∧
      (processAudioFile b st).1.length = 4) := by
  constructor
  · unfold mergeAudioFiles
    by_cases hlen : files.length < 2
    · rw [if_pos hlen]
      intro h
      simp [Except.isOk, Except.toBool] at h
    · rw [if_neg hlen]
      dsimp only
      cases hv : validateAndSum ((files.map Prod.snd).headD default).sampleRate
          ((files.map Prod.snd).headD default).numberOfChannels
          (files.map Prod.snd) with
      | error e =>
        intro h
        simp [Except.isOk, Except.toBool] at h
      | ok tl =>
        dsimp only
        cases hm : mkBuffer ((files.map Prod.snd).headD default).numberOfChannels
            (tl : ℤ) ((files.map Prod.snd).headD default).sampleRate with
        | error e =>
          intro h
          simp [Except.isOk, Except.toBool] at h
        | ok nb =>
          dsimp only
          cases hc : mergeCopy (files.map Prod.snd) 0 nb.channels with
          | none =>
            intro h
            simp [Except.isOk, Except.toBool] at h
          | some chans =>
            intro _
            dsimp only
            refine ⟨rfl, ?_⟩
            rw [List.length_append, List.length_append, List.length_cons,
              List.length_map, List.enum_length]
            rfl
  · unfold processAudioFile
    by_cases hc : (detectSpeechChunks b st).length = 0
    · rw [if_pos hc]
      intro h
      simp [Except.isOk, Except.toBool] at h
    · rw [if_neg hc]
      dsimp only
      cases hp : createPaddedAudio b (detectSpeechChunks b st) st with
      | error e =>
        intro h
        simp [Except.isOk, Except.toBool] at h
      | ok nb =>
        intro _
        exact ⟨rfl, rfl⟩

/-- C9 witness: a two-file merge emits exactly the five concrete messages
(decode announcement, two per-file decodes, validation, merging), and a
one-sample pace run emits exactly its four stage messages. -/
theorem claim_C9_progress_messages_witness :
    (mergeAudioFiles [("a", ⟨[[1]], 8⟩), ("b", ⟨[[2]], 8⟩)]).2.isOk = true ∧
    (mergeAudioFiles [("a", ⟨[[1]], 8⟩), ("b", ⟨[[2]], 8⟩)]).1 =
      ["Step 1/4: Decoding audio files...", "Decoding 1/2: a...",
        "Decoding 2/2: b...", "Step 3/4: Validating audio properties...",
        "Step 4/4: Merging audio..."] ∧
    (mergeAudioFiles [("a", ⟨[[1]], 8⟩), ("b", ⟨[[2]], 8⟩)]).1.length =
      [("a", (⟨[[1]], 8⟩ : SampleBuffer)), ("b", ⟨[[2]], 8⟩)].length + 3 ∧
    (processAudioFile ⟨[[1/2]], 1⟩ ⟨7/100, 1, 1⟩).2.isOk = true ∧
    (processAudioFile ⟨[[1/2]], 1⟩ ⟨7/100, 1, 1⟩).1 =
      ["Step 1/4: Decoding audio...", "Step 2/4: Analyzing for speech...",
        "Step 3/4: Reconstructing audio with pauses... (found 1 phrases)",
        "Step 4/4: Encoding final MP3 file..."] ∧
    (processAudioFile ⟨[[1/2]], 1⟩ ⟨7/100, 1, 1⟩).1.length = 4 := by
  obtain ⟨h1, h2⟩ := claim_C9_progress_messages
    [("a", ⟨[[1]], 8⟩), ("b", ⟨[[2]], 8⟩)] ⟨[[1/2]], 1⟩ ⟨7/100, 1, 1⟩
  obtain ⟨hm1, hm2⟩ := h1 (of_decide_eq_true (by with_unfolding_all rfl))
  obtain ⟨hp1, hp2⟩ := h2 (of_decide_eq_true (by with_unfolding_all rfl))
  exact ⟨of_decide_eq_true (by with_unfolding_all rfl),
    hm1.trans (by with_unfolding_all rfl), hm2,
    of_decide_eq_true (by with_unfolding_all rfl),
    hp1.trans (by with_unfolding_all rfl), hp2⟩

/-- **C6**: merging two or more decoded buffers that share the first
buffer's sample rate and channel count (with equal-length channels of
positive length, per the data model) succeeds with a buffer whose length
is the exact sum of the input lengths and whose each channel is the
concatenation of the inputs' corresponding channels in input order. -/
theorem claim_C6_merge_concat (files : List (String × SampleBuffer))
    (h2 : 2 ≤ files.length)
    (hmatch : ∀ b ∈ files.map Prod.snd,
      b.sampleRate = ((files.map Prod.snd).headD default).sampleRate ∧
      b.numberOfChannels = ((files.map Prod.snd).headD default).numberOfChannels)
    (hchan : ∀ b ∈ files.map Prod.snd, ∀ ch ∈ b.channels, ch.length = b.length)
    (hpos : ∀ b ∈ files.map Prod.snd, 1 ≤ b.length)
    (hn : 1 ≤ ((files.map Prod.snd).headD default).numberOfChannels) :
    ∃ out, (mergeAudioFiles files).2 = .ok out ∧
      out.length = ((files.map Prod.snd).map SampleBuffer.length).sum ∧
      out.sampleRate = ((files.map Prod.snd).headD default).sampleRate ∧
      out.numberOfChannels =
        ((files.map Prod.snd).headD default).numberOfChannels ∧
      ∀ j, j < ((files.map Prod.snd).headD default).numberOfChannels →
        out.channels.getD j [] =
          ((files.map Prod.snd).map (fun b => b.channels.getD j [])).flatten := by
  have hne : files.map Prod.snd ≠ [] := by
    intro hcon
    have hlen0 := congrArg List.length hcon
    rw [List.length_map, List.length_nil] at hlen0
    omega
  have hfbmem : (files.map Prod.snd).headD default ∈ files.map Prod.snd := by
    cases hfs : files.map Prod.snd with
    | nil => exact absurd hfs hne
    | cons x xs => exact List.mem_cons_self x xs
  have hT : 1 ≤ ((files.map Prod.snd).map SampleBuffer.length).sum := by
    have hmem : ((files.map Prod.snd).headD default).length ∈
        (files.map Prod.snd).map SampleBuffer.length :=
      List.mem_map_of_mem SampleBuffer.length hfbmem
    have := List.single_le_sum (fun i _ => Nat.zero_le i) _ hmem
    have hp := hpos _ hfbmem
    omega
  obtain ⟨final, hrun, hflen, hspec⟩ := mergeCopy_spec (files.map Prod.snd) 0
    ((files.map Prod.snd).map SampleBuffer.length).sum
    (List.replicate ((files.map Prod.snd).headD default).numberOfChannels [])
    (fun b hb => by
      rw [List.length_replicate]
      exact (hmatch b hb).2)
    hchan
    (fun p hp => by rw [List.eq_of_mem_replicate hp]; rfl)
    (by omega)
  unfold mergeAudioFiles
  rw [if_neg (not_lt.mpr h2)]
  dsimp only
  rw [validateAndSum_ok hmatch]
  dsimp only
  have hmk : mkBuffer ((files.map Prod.snd).headD default).numberOfChannels
      (((files.map Prod.snd).map SampleBuffer.length).sum : ℤ)
      ((files.map Prod.snd).headD default).sampleRate =
      .ok ⟨List.replicate ((files.map Prod.snd).headD default).numberOfChannels
        (List.replicate ((files.map Prod.snd).map SampleBuffer.length).sum 0),
        ((files.map Prod.snd).headD default).sampleRate⟩ := by
    unfold mkBuffer
    rw [if_pos ⟨hn, by exact_mod_cast hT⟩, Int.toNat_natCast]
  rw [hmk]
  dsimp only
  have hini : List.replicate ((files.map Prod.snd).headD default).numberOfChannels
      (List.replicate ((files.map Prod.snd).map SampleBuffer.length).sum (0 : ℚ)) =
      (List.replicate ((files.map Prod.snd).headD default).numberOfChannels
        ([] : List ℚ)).map
        (fun p => p ++ List.replicate
          (((files.map Prod.snd).map SampleBuffer.length).sum - 0) 0) := by
    rw [List.map_replicate, List.nil_append, Nat.sub_zero]
  rw [hini, hrun]
  dsimp only
  refine ⟨⟨final, ((files.map Prod.snd).headD default).sampleRate⟩, rfl, ?_, rfl,
    ?_, ?_⟩
  · show (final.headD []).length = _
    have hfl : final.length =
        ((files.map Prod.snd).headD default).numberOfChannels := by
      rw [hflen, List.length_replicate]
    have hfne : final ≠ [] := by
      intro hcon
      rw [hcon, List.length_nil] at hfl
      omega
    have hhead : final.headD [] = final.getD 0 [] := by
      cases final with
      | nil => exact absurd rfl hfne
      | cons x xs => rfl
    rw [hhead, hspec 0 (by rw [List.length_replicate]; omega),
      List.getD_eq_getElem _ _ (by rw [List.length_replicate]; omega),
      List.getElem_replicate, Nat.sub_zero, Nat.sub_self, List.replicate_zero,
      List.append_nil, List.nil_append, List.length_flatten, List.map_map]
    congr 1
    apply List.map_congr_left
    intro b hb
    have hbc : b.channels.length =
        ((files.map Prod.snd).headD default).numberOfChannels := (hmatch b hb).2
    have h0 : 0 < b.channels.length := by rw [hbc]; omega
    show (b.channels.getD 0 []).length = b.length
    rw [List.getD_eq_getElem _ _ h0]
    exact hchan b hb _ (List.getElem_mem h0)
  · show final.length = _
    rw [hflen, List.length_replicate]
  · intro j hj
    show final.getD j [] = _
    rw [hspec j (by rw [List.length_replicate]; exact hj),
      List.getD_eq_getElem _ _ (by rw [List.length_replicate]; exact hj),
      List.getElem_replicate, Nat.sub_zero, Nat.sub_self, List.replicate_zero,
      List.append_nil, List.nil_append]

theorem claim_C6_merge_concat_witness :
    ∃ out, (mergeAudioFiles
        [("a", ⟨[List.replicate 1000 (1/3)], 16000⟩),
         ("b", ⟨[List.replicate 2000 (2/3)], 16000⟩)]).2 = .ok out ∧
      out.length = 3000 ∧
      out.channels.getD 0 [] =
        List.replicate 1000 ((1 : ℚ)/3) ++ List.replicate 2000 (2/3) := by
  obtain ⟨out, hok, hlen, _, _, hch⟩ := claim_C6_merge_concat
    [("a", ⟨[List.replicate 1000 (1/3)], 16000⟩),
     ("b", ⟨[List.replicate 2000 (2/3)], 16000⟩)]
    (by norm_num)
    (by
      intro b hb
      rcases List.mem_cons.mp hb with rfl | hb2
      · exact ⟨rfl, rfl⟩
      · rcases List.mem_cons.mp hb2 with rfl | hb3
        · exact ⟨rfl, rfl⟩
        · exact absurd hb3 (List.not_mem_nil b))
    (by
      intro b hb ch hch
      rcases List.mem_cons.mp hb with rfl | hb2
      · rcases List.mem_cons.mp hch with rfl | hch2
        · rfl
        · exact absurd hch2 (List.not_mem_nil ch)
      · rcases List.mem_cons.mp hb2 with rfl | hb3
        · rcases List.mem_cons.mp hch with rfl | hch2
          · rfl
          · exact absurd hch2 (List.not_mem_nil ch)
        · exact absurd hb3 (List.not_mem_nil b))
    (by
      intro b hb
      rcases List.mem_cons.mp hb with rfl | hb2
      · show 1 ≤ (List.replicate 1000 ((1 : ℚ)/3)).length
        rw [List.length_replicate]
        norm_num
      · rcases List.mem_cons.mp hb2 with rfl | hb3
        · show 1 ≤ (List.replicate 2000 ((2 : ℚ)/3)).length
          rw [List.length_replicate]
          norm_num
        · exact absurd hb3 (List.not_mem_nil b))
    (Nat.le_refl 1)
  refine ⟨out, hok, ?_, ?_⟩
  · rw [hlen]
    rw [show (List.map SampleBuffer.length (List.map Prod.snd
        [("a", (⟨[List.replicate 1000 (1/3)], 16000⟩ : SampleBuffer)),
         ("b", ⟨[List.replicate 2000 (2/3)], 16000⟩)])) =
      [SampleBuffer.length ⟨[List.replicate 1000 (1/3)], 16000⟩,
       SampleBuffer.length ⟨[List.replicate 2000 (2/3)], 16000⟩] from rfl,
      List.sum_cons, List.sum_cons, List.sum_nil]
    rw [show SampleBuffer.length ⟨[List.replicate 1000 (1/3)], 16000⟩ = 1000 by
        show (List.replicate 1000 ((1 : ℚ)/3)).length = 1000
        rw [List.length_replicate],
      show SampleBuffer.length ⟨[List.replicate 2000 (2/3)], 16000⟩ = 2000 by
        show (List.replicate 2000 ((2 : ℚ)/3)).length = 2000
        rw [List.length_replicate]]
    norm_num
  · rw [hch 0 Nat.zero_lt_one]
    rw [show (([("a", (⟨[List.replicate 1000 (1/3)], 16000⟩ : SampleBuffer)),
        ("b", ⟨[List.replicate 2000 (2/3)], 16000⟩)].map Prod.snd).map
          (fun b => b.channels.getD 0 [])) =
      [List.replicate 1000 ((1 : ℚ)/3), List.replicate 2000 (2/3)] from rfl]
    rw [List.flatten_cons, List.flatten_cons, List.flatten_nil, List.append_nil]


theorem paddedTotalLength_eq_sum (chunks : List SpeechChunk) (pm : ℚ) :
    paddedTotalLength chunks pm =
      (chunks.map (fun c => (c.stop - c.start) * (1 + pm))).sum := by
  suffices h : ∀ (l : List SpeechChunk) (init : ℚ),
      l.foldl (fun acc c => acc + (c.stop - c.start) * (1 + pm)) init =
        init + (l.map (fun c => (c.stop - c.start) * (1 + pm))).sum by
    have := h chunks 0
    rw [zero_add] at this
    exact this
  intro l
  induction l with
  | nil => intro init; simp
  | cons c rest ih =>
    intro init
    rw [List.foldl_cons, ih, List.map_cons, List.sum_cons]
    ring

theorem int_le_ceil_of_le_add_half {m : ℤ} {x : ℚ} (h : (m : ℚ) ≤ x + 1/2) :
    m ≤ ⌈x⌉ := by
  have h2 : (m - 1 : ℤ) < ⌈x⌉ := Int.lt_ceil.mpr (by push_cast; linarith)
  omega

theorem subarrayQ_length_le (data : List ℚ) (a b : ℕ) :
    (subarrayQ data (a : ℚ) (b : ℚ)).length ≤ b - a := by
  rw [subarrayQ_natCast, List.length_take, List.length_drop]
  omega

theorem writeAt_length {target : List ℚ} {offset : ℤ} {src nd2 : List ℚ}
    (h : writeAt target offset src = some nd2) : nd2.length = target.length := by
  unfold writeAt at h
  split at h
  · rename_i hc
    injection h with h
    subst h
    rw [List.length_append, List.length_append, List.length_take, List.length_drop]
    omega
  · exact absurd h (by simp)

theorem copyChunksAux_fits (data : List ℚ) (pm : ℚ) (hpm : 0 ≤ pm) :
    ∀ (chunks : List SpeechChunk) (pos : ℚ) (nd : List ℚ),
    (∀ c ∈ chunks, ∃ a b : ℕ, c.start = (a : ℚ) ∧ c.stop = (b : ℚ) ∧ a < b) →
    0 ≤ pos →
    ⌈pos + (chunks.map (fun c => (c.stop - c.start) * (1 + pm))).sum⌉ ≤
      (nd.length : ℤ) →
    ∃ nd2, copyChunksAux data pm chunks pos nd = some nd2 ∧
      nd2.length = nd.length := by
  intro chunks
  induction chunks with
  | nil => intro pos nd _ _ _; exact ⟨nd, rfl, rfl⟩
  | cons c rest ih =>
    intro pos nd hch hpos hfit
    obtain ⟨a, b, hca, hcb, hab⟩ := hch c (List.mem_cons_self c rest)
    rw [List.map_cons, List.sum_cons, hca, hcb] at hfit
    have hrest_nonneg :
        0 ≤ (rest.map (fun c => (c.stop - c.start) * (1 + pm))).sum := by
      apply List.sum_nonneg
      intro x hx
      rw [List.mem_map] at hx
      obtain ⟨c', hc', rfl⟩ := hx
      obtain ⟨a', b', h1, h2, h3⟩ := hch c' (List.mem_cons_of_mem c hc')
      rw [h1, h2]
      have hd : (0 : ℚ) ≤ (b' : ℚ) - a' := by
        rw [sub_nonneg]
        exact_mod_cast le_of_lt h3
      have hp : (0 : ℚ) ≤ 1 + pm := by linarith
      exact mul_nonneg hd hp
    have hcdlen : (subarrayQ data (a : ℚ) (b : ℚ)).length ≤ b - a :=
      subarrayQ_length_le data a b
    have hjr0 : 0 ≤ jsRound pos := by
      unfold jsRound
      exact Int.floor_nonneg.mpr (by linarith)
    have hdur : (0 : ℚ) ≤ (b : ℚ) - a := by
      rw [sub_nonneg]
      exact_mod_cast le_of_lt hab
    have key : jsRound pos + ((subarrayQ data (a : ℚ) (b : ℚ)).length : ℤ) ≤
        (nd.length : ℤ) := by
      have h1 : (jsRound pos : ℚ) ≤ pos + 1/2 := Int.floor_le _
      have h2 : ((subarrayQ data (a : ℚ) (b : ℚ)).length : ℚ) ≤ (b : ℚ) - a := by
        have hcast : ((b - a : ℕ) : ℚ) = (b : ℚ) - a := by
          push_cast [Nat.cast_sub (le_of_lt hab)]
          ring
        rw [← hcast]
        exact_mod_cast hcdlen
      have h3 : ((b : ℚ) - a) ≤ ((b : ℚ) - a) * (1 + pm) := by nlinarith
      have h4 : (jsRound pos : ℚ) + (subarrayQ data (a : ℚ) (b : ℚ)).length ≤
          (pos + (((b : ℚ) - a) * (1 + pm) +
            (rest.map (fun c => (c.stop - c.start) * (1 + pm))).sum)) + 1/2 := by
        linarith
      have h5 := int_le_ceil_of_le_add_half (m := jsRound pos +
        (subarrayQ data (a : ℚ) (b : ℚ)).length)
        (x := pos + (((b : ℚ) - a) * (1 + pm) +
          (rest.map (fun c => (c.stop - c.start) * (1 + pm))).sum))
        (by push_cast; linarith [h4])
      omega
    have hwrite : writeAt nd (jsRound pos) (subarrayQ data (a : ℚ) (b : ℚ)) =
        some (nd.take (jsRound pos).toNat ++ subarrayQ data (a : ℚ) (b : ℚ) ++
          nd.drop ((jsRound pos).toNat + (subarrayQ data (a : ℚ) (b : ℚ)).length)) := by
      unfold writeAt
      rw [if_pos ⟨hjr0, by omega⟩]
    rw [copyChunksAux_cons, hca, hcb, hwrite]
    dsimp only
    have hndlen : (nd.take (jsRound pos).toNat ++ subarrayQ data (a : ℚ) (b : ℚ) ++
        nd.drop ((jsRound pos).toNat +
          (subarrayQ data (a : ℚ) (b : ℚ)).length)).length = nd.length := by
      rw [List.length_append, List.length_append, List.length_take,
        List.length_drop]
      omega
    obtain ⟨nd2, hrun, hlen2⟩ := ih
      (pos + ((b : ℚ) - a) + ((b : ℚ) - a) * pm) _
      (fun c' hc' => hch c' (List.mem_cons_of_mem c hc'))
      (by nlinarith)
      (by
        rw [hndlen]
        rw [show pos + ((b : ℚ) - a) + ((b : ℚ) - a) * pm +
            (rest.map (fun c => (c.stop - c.start) * (1 + pm))).sum =
          pos + (((b : ℚ) - a) * (1 + pm) +
            (rest.map (fun c => (c.stop - c.start) * (1 + pm))).sum) by ring]
        exact hfit)
    exact ⟨nd2, hrun, by rw [hlen2, hndlen]⟩

theorem mapM_copyChunksAux {pm : ℚ} {chunks : List SpeechChunk} {L : ℕ}
    (hterm : ∀ (data nd : List ℚ), nd.length = L →
      ∃ nd2, copyChunksAux data pm chunks 0 nd = some nd2 ∧ nd2.length = L) :
    ∀ (pairs : List (List ℚ × List ℚ)), (∀ p ∈ pairs, p.2.length = L) →
    ∃ res, pairs.mapM (fun p => copyChunksAux p.1 pm chunks 0 p.2) = some res ∧
      res.length = pairs.length ∧ ∀ r ∈ res, r.length = L := by
  intro pairs
  induction pairs with
  | nil =>
    exact fun _ => ⟨[], rfl, rfl, fun r hr => absurd hr (List.not_mem_nil r)⟩
  | cons p ps ih =>
    intro h
    obtain ⟨nd2, h1, h2⟩ := hterm p.1 p.2 (h p (List.mem_cons_self p ps))
    obtain ⟨res, h3, h4, h5⟩ := ih (fun q hq => h q (List.mem_cons_of_mem p hq))
    refine ⟨nd2 :: res, ?_, by simp [h4], ?_⟩
    · rw [List.mapM_cons, h1, h3]
      rfl
    · intro r hr
      rcases List.mem_cons.mp hr with rfl | hr
      · exact h2
      · exact h5 r hr

/-- C4: for a nonempty chunk list with integer sample bounds (start < stop), a
nonnegative pause multiplier and at least one channel, `createPaddedAudio`
succeeds and returns a buffer whose length is the ceiling of the summed padded
durations `(stop - start) * (1 + pauseMultiplier)`, with the original channel
count and sample rate. -/
theorem claim_C4_resynthesis_length (orig : SampleBuffer)
    (chunks : List SpeechChunk) (st : Settings)
    (hne : chunks ≠ [])
    (hch : ∀ c ∈ chunks, ∃ a b : ℕ, c.start = (a : ℚ) ∧ c.stop = (b : ℚ) ∧ a < b)
    (hpm : 0 ≤ st.pauseMultiplier)
    (hnch : 1 ≤ orig.numberOfChannels) :
    ∃ out, createPaddedAudio orig chunks st = .ok out ∧
      out.length = ⌈paddedTotalLength chunks st.pauseMultiplier⌉.toNat ∧
      out.numberOfChannels = orig.numberOfChannels ∧
      out.sampleRate = orig.sampleRate := by
  have hsum_pos : 0 < paddedTotalLength chunks st.pauseMultiplier := by
    rw [paddedTotalLength_eq_sum]
    cases chunks with
    | nil => exact absurd rfl hne
    | cons c rest =>
      rw [List.map_cons, List.sum_cons]
      obtain ⟨a, b, h1, h2, h3⟩ := hch c (List.mem_cons_self c rest)
      have hd : (0 : ℚ) < (c.stop - c.start) * (1 + st.pauseMultiplier) := by
        rw [h1, h2]
        have : (0 : ℚ) < (b : ℚ) - a := by
          rw [sub_pos]
          exact_mod_cast h3
        nlinarith
      have hr : 0 ≤ (rest.map (fun c => (c.stop - c.start) *
          (1 + st.pauseMultiplier))).sum := by
        apply List.sum_nonneg
        intro x hx
        rw [List.mem_map] at hx
        obtain ⟨c', hc', rfl⟩ := hx
        obtain ⟨a', b', h1', h2', h3'⟩ := hch c' (List.mem_cons_of_mem c hc')
        rw [h1', h2']
        have hd : (0 : ℚ) ≤ (b' : ℚ) - a' := by
          rw [sub_nonneg]
          exact_mod_cast le_of_lt h3'
        nlinarith
      linarith
  have hL1 : (1 : ℤ) ≤ ⌈paddedTotalLength chunks st.pauseMultiplier⌉ := by
    have := Int.ceil_pos.mpr hsum_pos
    omega
  have hmk : mkBuffer orig.numberOfChannels
      ⌈paddedTotalLength chunks st.pauseMultiplier⌉ orig.sampleRate =
      .ok ⟨List.replicate orig.numberOfChannels
        (List.replicate ⌈paddedTotalLength chunks st.pauseMultiplier⌉.toNat 0),
        orig.sampleRate⟩ := by
    unfold mkBuffer
    rw [if_pos ⟨hnch, hL1⟩]
  obtain ⟨res, hres, hreslen, hresall⟩ := mapM_copyChunksAux
    (fun data nd hnd => by
      obtain ⟨nd2, h1, h2⟩ := copyChunksAux_fits data st.pauseMultiplier hpm
        chunks 0 nd hch (le_refl 0)
        (by
          rw [hnd, zero_add, ← paddedTotalLength_eq_sum,
            Int.toNat_of_nonneg (show (0 : ℤ) ≤
              ⌈paddedTotalLength chunks st.pauseMultiplier⌉ by omega)])
      exact ⟨nd2, h1, by rw [h2, hnd]⟩)
    (orig.channels.zip (List.replicate orig.numberOfChannels
      (List.replicate ⌈paddedTotalLength chunks st.pauseMultiplier⌉.toNat 0)))
    (fun p hp => by
      have hmem := (List.of_mem_zip hp).2
      rw [List.eq_of_mem_replicate hmem, List.length_replicate])
  have hziplen : (orig.channels.zip (List.replicate orig.numberOfChannels
      (List.replicate ⌈paddedTotalLength chunks st.pauseMultiplier⌉.toNat (0 : ℚ)))).length =
      orig.numberOfChannels := by
    rw [List.length_zip, List.length_replicate]
    show orig.channels.length ⊓ orig.channels.length = orig.channels.length
    rw [min_self]
  refine ⟨⟨res, orig.sampleRate⟩,
    createPaddedAudio_ok hsum_pos.ne' hmk hres, ?_, ?_, rfl⟩
  · show (res.headD []).length = _
    have hrl : res.length = orig.numberOfChannels := hreslen.trans hziplen
    have hrne : res ≠ [] := by
      intro hcon
      rw [hcon, List.length_nil] at hrl
      omega
    have hhd : res.headD [] ∈ res := by
      cases res with
      | nil => exact absurd rfl hrne
      | cons x xs => exact List.mem_cons_self x xs
    exact hresall _ hhd
  · show res.length = _
    exact hreslen.trans hziplen

/-- C4 witness: a two-sample single-channel buffer with one chunk (0, 2) and
pause multiplier 1 resynthesises to 4 samples, 1 channel, rate 8. -/
theorem claim_C4_resynthesis_length_witness :
    ∃ out, createPaddedAudio ⟨[[(1:ℚ)/2, 1/2]], 8⟩ [⟨0, 2⟩] ⟨7/100, 3/10, 1⟩ = .ok out ∧
      out.length = 4 ∧ out.numberOfChannels = 1 ∧ out.sampleRate = 8 := by
  obtain ⟨out, h1, h2, h3, h4⟩ :=
    claim_C4_resynthesis_length ⟨[[(1:ℚ)/2, 1/2]], 8⟩ [⟨0, 2⟩] ⟨7/100, 3/10, 1⟩
      (by simp)
      (by
        intro c hc
        rw [List.mem_singleton] at hc
        subst hc
        exact ⟨0, 2, by norm_num, by norm_num, by norm_num⟩)
      (by norm_num)
      (Nat.le_refl 1)
  refine ⟨out, h1, ?_, h3, h4⟩
  rw [h2]
  show (⌈paddedTotalLength [⟨0, 2⟩] (1:ℚ)⌉).toNat = 4
  have hp : paddedTotalLength [(⟨0, 2⟩ : SpeechChunk)] (1:ℚ) = 4 := by
    unfold paddedTotalLength
    rw [List.foldl_cons, List.foldl_nil]
    norm_num
  rw [hp, show ((4:ℚ)) = ((4:ℤ):ℚ) by norm_num, Int.ceil_intCast]
  rfl
